import Mathlib

/-!
# Verification of the manifest aggregation engine
# (`src/treads/api/nanobot_template_util.py`)

This file gives a shallow embedding of the manifest aggregation engine of
the `treads` repository (`load_yaml`, `adjust_mcp_paths`,
`merge_nanobot_yamls` in `src/treads/api/nanobot_template_util.py`) and
proves or refutes the frozen claims about it.

Modelling conventions:

* A parsed YAML value is modelled by the inductive type `Yaml`.  Python
  dicts are modelled as insertion-ordered association lists
  (`List (String × Yaml)`); Python dicts have unique keys, and every
  operation below uses first-match lookup, matching Python semantics on
  every dict that can actually arise from parsing YAML.
* A top-level manifest is modelled as an association list
  (`NanoDict`): the data model of the spec (§3) declares every manifest
  to be a mapping with keys `publish`, `agents`, `mcpServers`.
* Fallible Python operations (`x[k]`, `k in x`, iteration, `str.endswith`
  on a non-string, YAML parse failures) are modelled in the `Except PyErr`
  monad; a raised Python exception is an `Except.error`, which aborts the
  aggregation run before the output file is written (the source writes the
  output file only at the very end of `merge_nanobot_yamls`).
* `Path.cwd()` is absolute, so `AGENTS_DIR` is an absolute path; the
  agents directory is passed explicitly as the `dir` argument below
  (spec §9 suggests exactly this parameterization).  `pathlib`'s `/`
  operator discards its left operand when the right operand is an
  absolute path; `pathJoin` models this.
* The source derives both the root/main manifest (`agents/app/nanobot.yaml`)
  and the subordinate loop from the same `agents/` directory, so the
  distinguished `"app"` directory is visited by the subordinate loop as
  well.  The input of `mergeRun` is the ordered list of directory entries
  of `agents/` (name, optional parse outcome of `<name>/nanobot.yaml`;
  `none` means the directory has no manifest file and is skipped).
-/

set_option autoImplicit false

namespace Treads

/-- A parsed YAML document node.  Mappings are insertion-ordered
association lists with string keys (manifest keys are strings). -/
inductive Yaml where
  | nullV : Yaml
  | bool : Bool → Yaml
  | int : Int → Yaml
  | str : String → Yaml
  | list : List Yaml → Yaml
  | map : List (String × Yaml) → Yaml

/-- A Python dict with string keys, as an insertion-ordered association
list (unique keys in any dict produced by YAML parsing). -/
abbrev NanoDict := List (String × Yaml)

/-- The Python exceptions the aggregation engine can raise.  A
`parseError` carries the path of the offending manifest file: PyYAML
attaches the stream name (the opened file's path) to its error marks, so
`yaml.safe_load(open(path))` failures identify `path`. -/
inductive PyErr where
  | parseError (path : String) : PyErr
  | typeError (msg : String) : PyErr
  | keyError (key : String) : PyErr
  | attributeError (msg : String) : PyErr
  deriving DecidableEq, Repr

/-- Python truthiness (`bool(x)`) of a YAML value: `None`, `False`, `0`,
`""`, `[]` and `{}` are falsy. -/
def pyFalsy : Yaml → Bool
  | .nullV => true
  | .bool b => !b
  | .int n => n == 0
  | .str s => s == ""
  | .list xs => xs.isEmpty
  | .map kvs => kvs.isEmpty

/-- First-match lookup in a dict, `d.get(k)` / `d[k]` on a Python dict. -/
def dictGet (d : NanoDict) (k : String) : Option Yaml :=
  match d with
  | [] => none
  | kv :: rest => if kv.1 = k then some kv.2 else dictGet rest k

/-- `k in d` for a Python dict. -/
def dictHas (d : NanoDict) (k : String) : Bool :=
  (dictGet d k).isSome

/-- `d[k] = v` on a Python dict: an existing key keeps its position and
gets the new value, a new key is appended. -/
def dictInsert (d : NanoDict) (k : String) (v : Yaml) : NanoDict :=
  if dictHas d k then
    d.map (fun kv => if kv.1 = k then (k, v) else kv)
  else
    d ++ [(k, v)]

/-- `d.update(e)` on Python dicts: entries of `e` folded into `d` in
order. -/
def dictUpdate (d e : NanoDict) : NanoDict :=
  e.foldl (fun acc kv => dictInsert acc kv.1 kv.2) d

/-- `k in xs` for a Python list `xs` and string `k`: an element equal to
the string `k` (only a `str` element can compare equal to a string). -/
def listHasStrElem (xs : List Yaml) (k : String) : Bool :=
  xs.any (fun y => match y with | .str s => s == k | _ => false)

/-- Python `k in y` for a YAML value `y`: key test on a dict, element
equality on a list, substring test on a string, `TypeError` otherwise. -/
def pyIn (k : String) : Yaml → Except PyErr Bool
  | .map kvs => .ok (kvs.any (fun kv => kv.1 == k))
  | .list xs => .ok (listHasStrElem xs k)
  | .str s => .ok (decide (k.data <:+: s.data))
  | _ => .error (.typeError "argument of type is not iterable")

/-- Python `y[k]` for a string key `k`: dict lookup (`KeyError` when the
key is missing), `TypeError` on any non-dict. -/
def pyIdx (y : Yaml) (k : String) : Except PyErr Yaml :=
  match y with
  | .map kvs =>
    match dictGet kvs k with
    | some v => .ok v
    | none => .error (.keyError k)
  | _ => .error (.typeError "indices must be integers")

/-- Python iteration over a YAML value (as consumed by `list.extend` and
`for` loops): a list yields its elements, a string its one-character
substrings, a dict its keys; anything else raises `TypeError`. -/
def pyIter : Yaml → Except PyErr (List Yaml)
  | .list xs => .ok xs
  | .str s => .ok (s.data.map (fun c => .str (String.mk [c])))
  | .map kvs => .ok (kvs.map (fun kv => .str kv.1))
  | _ => .error (.typeError "object is not iterable")

/-- Python `repr` of a YAML value (element form used inside `str` of
containers).  String escaping inside quotes is not reproduced; no claim
depends on the repr of strings containing quote characters. -/
def pyRepr : Yaml → String
  | .nullV => "None"
  | .bool b => if b then "True" else "False"
  | .int n => toString n
  | .str s => "'" ++ s ++ "'"
  | .list xs => "[" ++ ", ".intercalate (xs.attach.map (fun x => pyRepr x.1)) ++ "]"
  | .map kvs =>
    "\x7b" ++
      ", ".intercalate (kvs.attach.map (fun kv => "'" ++ kv.1.1 ++ "': " ++ pyRepr kv.1.2)) ++
      "\x7d"
decreasing_by
  · have h := List.sizeOf_lt_of_mem x.2
    simp only [Yaml.list.sizeOf_spec]
    omega
  · have h := List.sizeOf_lt_of_mem kv.2
    have h2 : sizeOf kv.1.2 < sizeOf kv.1 := by
      obtain ⟨a, b⟩ := kv.1
      simp only [Prod.mk.sizeOf_spec]
      omega
    simp only [Yaml.map.sizeOf_spec]
    omega

/-- Python `str` of a YAML value: the identity on strings, `repr`
otherwise (`str` and `repr` agree on `None`, booleans, numbers, lists and
dicts). -/
def pyStr : Yaml → String
  | .str s => s
  | y => pyRepr y

/-- Python `s.startswith(p)` on strings (unicode code point prefix). -/
def pyStartsWith (s pat : String) : Bool :=
  decide (pat.data <+: s.data)

/-- Python `s.endswith(p)` on strings (unicode code point suffix). -/
def pyEndsWith (s pat : String) : Bool :=
  decide (pat.data <:+ s.data)

/-- `str(PurePosixPath(a) / b)`: `pathlib` discards the left operand when
the right operand is an absolute path, otherwise it joins with a
separator.  (For operands without redundant separators or dot segments —
the only forms arising here — this is exactly `pathlib`'s behavior.) -/
def pathJoin (a b : String) : String :=
  if pyStartsWith b "/" then b else a ++ "/" ++ b

/-!  ## `adjust_mcp_paths` (source lines 18-30)

```python
def adjust_mcp_paths(agent_name, mcp_servers):
    for server in mcp_servers.values():
        if not server:
            continue
        if "args" in server:
            new_args = []
            for arg in server["args"]:
                if arg.endswith(".py"):
                    new_args.append(str(AGENTS_DIR / agent_name / arg))
                else:
                    new_args.append(arg)
            server["args"] = new_args
    return mcp_servers
```

The loop mutates each (truthy, `args`-carrying) server dict in place and
returns the very dict object it was given; the value computed per server
is modelled by `adjustServer`, and the whole call by `adjustMcpPaths`
(the value of the returned — and equally of the mutated input — dict).
`dir` stands for `AGENTS_DIR`, an absolute path in the source. -/

/-- One `.py`-argument rewrite: `str(AGENTS_DIR / agent_name / arg)` when
`arg.endswith(".py")`, the argument verbatim otherwise (the source only
reaches this with string arguments; a non-string raises
`AttributeError` at `arg.endswith`). -/
def adjustArg (dir name : String) (arg : String) : String :=
  if pyEndsWith arg ".py" then pathJoin (pathJoin dir name) arg else arg

/-- The loop body of `adjust_mcp_paths` for a single server value. -/
def adjustServer (dir name : String) (server : Yaml) : Except PyErr Yaml :=
  if pyFalsy server then .ok server
  else
    match pyIn "args" server with
    | .error e => .error e
    | .ok false => .ok server
    | .ok true =>
      match pyIdx server "args" with
      | .error e => .error e
      | .ok argsV =>
        match pyIter argsV with
        | .error e => .error e
        | .ok elems =>
          match elems.mapM (fun a => match a with
              | .str s => Except.ok (Yaml.str (adjustArg dir name s))
              | _ => Except.error (PyErr.attributeError "endswith")) with
          | .error e => .error e
          | .ok newArgs =>
            match server with
            | .map skvs => .ok (.map (dictInsert skvs "args" (.list newArgs)))
            | _ => .error (.typeError "item assignment")

/-- `adjust_mcp_paths(agent_name, mcp_servers)` as a value function: the
value of the returned dict (the source mutates and returns the same
object; see `adjustMcpRun`). -/
def adjustMcpPaths (dir name : String) (servers : NanoDict) : Except PyErr NanoDict :=
  servers.mapM (fun kv => (adjustServer dir name kv.2).map (fun v => (kv.1, v)))

/-- `adjust_mcp_paths` with the heap effect made explicit: the result is
`(return value, post-call state of the argument dict)`.  The source's only
writes are `server["args"] = new_args` on the servers of the argument, and
it returns `mcp_servers` itself, so the argument's post-call state is the
same dict as the returned one. -/
def adjustMcpRun (dir name : String) (servers : NanoDict) :
    Except PyErr (NanoDict × NanoDict) :=
  (adjustMcpPaths dir name servers).map (fun r => (r, r))

/-!  ## `merge_nanobot_yamls` (source lines 32-121)

Inputs: the ordered directory entries of `agents/` as
`(name, Option LoadResult)`; `none` models a subdirectory without a
`nanobot.yaml` (skipped, source lines 63-64), `some .malformed` a manifest
file that is not valid YAML (``load_yaml`` raises), and `some (.parsed d)`
a manifest parsing to the mapping `d`.  The root/main manifest is
`agents/app/nanobot.yaml` (source lines 11-12), hence the entry named
`"app"` when it has a manifest. -/

/-- Outcome of parsing one manifest file. -/
inductive LoadResult where
  | parsed (d : NanoDict) : LoadResult
  | malformed : LoadResult

/-- `load_yaml(path)` (source lines 14-16): returns the parsed document
or raises a YAML error identifying `path` (PyYAML marks errors with the
stream name, which is the opened file's path). -/
def loadYaml (path : String) : LoadResult → Except PyErr NanoDict
  | .parsed d => .ok d
  | .malformed => .error (.parseError path)

/-- The manifest path of the agent directory `name`:
`AGENTS_DIR / name / "nanobot.yaml"`. -/
def yamlPath (dir name : String) : String :=
  pathJoin (pathJoin dir name) "nanobot.yaml"

/-- The directory entries of `agents/`; `none` means the subdirectory has
no `nanobot.yaml` file. -/
abbrev AgentDirs := List (String × Option LoadResult)

/-- `MAIN_AGENT_YAML.exists()` and its parse outcome: the `"app"` entry
of the agents directory, when it has a manifest file. -/
def findMain (dirs : AgentDirs) : Option LoadResult :=
  match dirs with
  | [] => none
  | (name, olr) :: rest => if name = "app" then olr else findMain rest

/-- The accumulating `merged` record before deduplication: the four
`publish` lists plus the `agents` and `mcpServers` maps. -/
structure RawAcc where
  tools : List Yaml
  prompts : List Yaml
  resources : List Yaml
  resourceTemplates : List Yaml
  agents : NanoDict
  mcpServers : NanoDict

/-- `merged` as initialized at source lines 33-37. -/
def initAcc : RawAcc := ⟨[], [], [], [], [], []⟩

/-- One conditional `merged["publish"][key].extend(p[key])` (source lines
44-51 for the main manifest, 67-74 for a subordinate agent): membership
test on `p`, indexing, then iteration of the value. -/
def pubExtendField (p : Yaml) (key : String) (acc : List Yaml) :
    Except PyErr (List Yaml) :=
  match pyIn key p with
  | .error e => .error e
  | .ok false => .ok acc
  | .ok true =>
    match pyIdx p key with
    | .error e => .error e
    | .ok v =>
      match pyIter v with
      | .error e => .error e
      | .ok xs => .ok (acc ++ xs)

/-- The four `publish` list extensions, in source order (`tools`,
`prompts`, `resources`, `resourceTemplates`). -/
def pubExtend (acc : RawAcc) (p : Yaml) : Except PyErr RawAcc :=
  match pubExtendField p "tools" acc.tools with
  | .error e => .error e
  | .ok tools =>
    match pubExtendField p "prompts" acc.prompts with
    | .error e => .error e
    | .ok prompts =>
      match pubExtendField p "resources" acc.resources with
      | .error e => .error e
      | .ok resources =>
        match pubExtendField p "resourceTemplates" acc.resourceTemplates with
        | .error e => .error e
        | .ok rts =>
          .ok { acc with tools := tools, prompts := prompts,
                         resources := resources, resourceTemplates := rts }

/-- Folding the main manifest (source lines 40-58): for each of
`publish`, `agents`, `mcpServers` — a dict value is merged (`publish`
via the four extends, the other two via `dict.update`, with **no**
filtering of null values); a list value extends `merged["publish"]["tools"]`
for `publish` and hits `merged[k]["tools"]` (a `KeyError`) otherwise; any
other value is ignored. -/
def mainFold (acc : RawAcc) (d : NanoDict) : Except PyErr RawAcc :=
  let step1 : Except PyErr RawAcc :=
    match dictGet d "publish" with
    | none => .ok acc
    | some (.map pub) => pubExtend acc (.map pub)
    | some (.list xs) => .ok { acc with tools := acc.tools ++ xs }
    | some _ => .ok acc
  match step1 with
  | .error e => .error e
  | .ok acc =>
    let step2 : Except PyErr RawAcc :=
      match dictGet d "agents" with
      | none => .ok acc
      | some (.map kvs) => .ok { acc with agents := dictUpdate acc.agents kvs }
      | some (.list _) => .error (.keyError "tools")
      | some _ => .ok acc
    match step2 with
    | .error e => .error e
    | .ok acc =>
      match dictGet d "mcpServers" with
      | none => .ok acc
      | some (.map kvs) => .ok { acc with mcpServers := dictUpdate acc.mcpServers kvs }
      | some (.list _) => .error (.keyError "tools")
      | some _ => .ok acc

/-- Source lines 38-39 plus the fold: load and fold the main manifest if
`agents/app/nanobot.yaml` exists. -/
def stageMain (dir : String) (dirs : AgentDirs) (acc : RawAcc) :
    Except PyErr RawAcc :=
  match findMain dirs with
  | none => .ok acc
  | some lr =>
    match loadYaml (yamlPath dir "app") lr with
    | .error e => .error e
    | .ok d => mainFold acc d

/-- Source lines 79-81: fold the rewritten `mcpServers` entries into the
aggregate, skipping values that are `None` or not a dict
(`v is not None and isinstance(v, dict)`). -/
def mcpMergeFiltered (acc : NanoDict) (adj : NanoDict) : NanoDict :=
  adj.foldl (fun a kv =>
    match kv.2 with
    | .map _ => dictInsert a kv.1 kv.2
    | _ => a) acc

/-- The body of the subordinate-agent loop (source lines 59-81) for one
directory entry: skip directories without a manifest, load the manifest,
extend the `publish` lists, `dict.update` the `agents` map, and merge the
path-rewritten `mcpServers` with the null/non-dict filter.
(`merged["agents"].update(x)` with a non-dict `x` and
`x.values()` on a non-dict raise; Python would also accept some exotic
iterables of pairs for `update`, which no parsed manifest mapping value
exercises in any claim.) -/
def agentFold (dir : String) (acc : RawAcc) (name : String)
    (olr : Option LoadResult) : Except PyErr RawAcc :=
  match olr with
  | none => .ok acc
  | some lr =>
    match loadYaml (yamlPath dir name) lr with
    | .error e => .error e
    | .ok ay =>
      let step1 : Except PyErr RawAcc :=
        match dictGet ay "publish" with
        | none => .ok acc
        | some p => pubExtend acc p
      match step1 with
      | .error e => .error e
      | .ok acc =>
        let step2 : Except PyErr RawAcc :=
          match dictGet ay "agents" with
          | none => .ok acc
          | some (.map kvs) => .ok { acc with agents := dictUpdate acc.agents kvs }
          | some _ => .error (.typeError "update")
        match step2 with
        | .error e => .error e
        | .ok acc =>
          match dictGet ay "mcpServers" with
          | none => .ok acc
          | some (.map kvs) =>
            match adjustMcpPaths dir name kvs with
            | .error e => .error e
            | .ok adj => .ok { acc with mcpServers := mcpMergeFiltered acc.mcpServers adj }
          | some _ => .error (.attributeError "values")

/-- The subordinate-agent loop (source lines 59-81). -/
def stageAgents (dir : String) (acc : RawAcc) : AgentDirs → Except PyErr RawAcc
  | [] => .ok acc
  | (name, olr) :: rest =>
    match agentFold dir acc name olr with
    | .error e => .error e
    | .ok acc' => stageAgents dir acc' rest

/-- Source lines 38-81: the main fold followed by the agent loop. -/
def stageAB (dir : String) (dirs : AgentDirs) : Except PyErr RawAcc :=
  match stageMain dir dirs initAcc with
  | .error e => .error e
  | .ok acc => stageAgents dir acc dirs

/-!  ## Deduplication stage (source lines 82-99) -/

/-- Insert a string into a strictly sorted list, keeping it strictly
sorted (no duplicate inserted). -/
def insertUniq (x : String) : List String → List String
  | [] => [x]
  | y :: ys => if x = y then y :: ys else if x < y then x :: y :: ys else y :: insertUniq x ys

/-- `list(sorted(set(l)))` on a list of strings: the distinct elements in
lexicographic order. -/
def sortedDedup : List String → List String
  | [] => []
  | x :: xs => insertUniq x (sortedDedup xs)

/-- The elements of `xs` as strings, when they all are strings.  Python's
`sorted(set(xs))` needs hashable, mutually comparable elements; manifest
capability lists hold strings (spec §3), and `pySortedSetStr` models the
source on exactly those (Python would also sort other homogeneous
comparable element types, and raises on mixed or unhashable ones). -/
def yamlStrs : List Yaml → Option (List String)
  | [] => some []
  | .str s :: rest => (yamlStrs rest).map (fun ss => s :: ss)
  | _ :: _ => none

/-- `list(sorted(set(xs)))` (source lines 82, 98, 99). -/
def pySortedSetStr (xs : List Yaml) : Except PyErr (List String) :=
  match yamlStrs xs with
  | some ss => .ok (sortedDedup ss)
  | none => .error (.typeError "sorted")

/-- Source line 93, `f"{{{key}}}" if value is None else str(value)`:
the literal template string `"{key}"` for a null value, `str(value)`
otherwise. -/
def promptTemplate (k : String) (v : Yaml) : String :=
  match v with
  | .nullV => "\x7b" ++ k ++ "\x7d"
  | _ => pyStr v

/-- The normalization of one prompt entry (source lines 86-93): a string
stands for itself; a single-key mapping `{key: value}` stands for
`promptTemplate key value`; anything else is dropped (`none`). -/
def promptNorm : Yaml → Option String
  | .str s => some s
  | .map [(k, v)] => some (promptTemplate k v)
  | _ => none

/-- The prompt deduplication loop (source lines 83-96): walk the merged
prompt list with the `seen` set (modelled as the list of seen strings),
keeping the first occurrence of each normalized value and silently
dropping entries that are neither strings nor single-key mappings. -/
def dedupPromptsAux : List Yaml → List String → List String
  | [], _ => []
  | .str s :: rest, seen =>
    if s ∈ seen then dedupPromptsAux rest seen
    else s :: dedupPromptsAux rest (s :: seen)
  | .map [(k, v)] :: rest, seen =>
    let t := promptTemplate k v
    if t ∈ seen then dedupPromptsAux rest seen
    else t :: dedupPromptsAux rest (t :: seen)
  | _ :: rest, seen => dedupPromptsAux rest seen

/-- `unique_prompts` as assigned at source line 97. -/
def dedupPrompts (ps : List Yaml) : List String :=
  dedupPromptsAux ps []

/-!  ## Entrypoint resolution (source lines 100-115)

The source re-iterates the agents directory, re-loading every manifest,
then falls back to the main manifest. -/

/-- One step of the entrypoint scan (source lines 101-109): a manifest
whose `publish` has an `entrypoint` key overwrites the accumulator,
whatever the value. -/
def entryStep (dir : String) (acc : Option Yaml) (name : String)
    (olr : Option LoadResult) : Except PyErr (Option Yaml) :=
  match olr with
  | none => .ok acc
  | some lr =>
    match loadYaml (yamlPath dir name) lr with
    | .error e => .error e
    | .ok ay =>
      match dictGet ay "publish" with
      | none => .ok acc
      | some p =>
        match pyIn "entrypoint" p with
        | .error e => .error e
        | .ok false => .ok acc
        | .ok true =>
          match pyIdx p "entrypoint" with
          | .error e => .error e
          | .ok v => .ok (some v)

/-- The entrypoint scan loop over the agents directory. -/
def entryScan (dir : String) (acc : Option Yaml) : AgentDirs → Except PyErr (Option Yaml)
  | [] => .ok acc
  | (name, olr) :: rest =>
    match entryStep dir acc name olr with
    | .error e => .error e
    | .ok acc' => entryScan dir acc' rest

/-- Python truthiness of the `entrypoint` variable (`None` before any
assignment). -/
def entryTruthy : Option Yaml → Bool
  | none => false
  | some v => !pyFalsy v

/-- Source lines 100-115: scan all agent manifests (last declaration
wins), fall back to the main manifest when the scanned value is falsy
(`if not entrypoint`), and set the `entrypoint` key only when the final
value is truthy (`if entrypoint`). -/
def entryResolve (dir : String) (dirs : AgentDirs) : Except PyErr (Option Yaml) :=
  match entryScan dir none dirs with
  | .error e => .error e
  | .ok e0 =>
    let fallback : Except PyErr (Option Yaml) :=
      if entryTruthy e0 then .ok e0
      else
        match findMain dirs with
        | none => .ok e0
        | some lr =>
          match loadYaml (yamlPath dir "app") lr with
          | .error e => .error e
          | .ok d =>
            match dictGet d "publish" with
            | none => .ok e0
            | some p =>
              match pyIn "entrypoint" p with
              | .error e => .error e
              | .ok false => .ok e0
              | .ok true =>
                match pyIdx p "entrypoint" with
                | .error e => .error e
                | .ok v => .ok (some v)
    match fallback with
    | .error e => .error e
    | .ok e1 => .ok (if entryTruthy e1 then e1 else none)

/-!  ## The aggregate manifest -/

/-- The `publish` record of the aggregate manifest after deduplication;
`entrypoint = none` models the key being absent (source line 114 sets it
only for a truthy value). -/
structure MergedPublish where
  tools : List String
  prompts : List String
  resources : List String
  resourceTemplates : List String
  entrypoint : Option Yaml

/-- The aggregate manifest written to `nanobot.yaml`. -/
structure Merged where
  publish : MergedPublish
  agents : NanoDict
  mcpServers : NanoDict

/-- `merge_nanobot_yamls()` (source lines 32-121) on the directory
entries `dirs` of the agents directory `dir`: fold the main manifest and
every subordinate manifest, deduplicate the `publish` lists, resolve the
entrypoint, and return the aggregate that the source then serializes to
the output file.  An `Except.error` models a raised Python exception,
which aborts the run before the output file is opened for writing (the
write at source lines 116-120 is the last step). -/
def mergeRun (dir : String) (dirs : AgentDirs) : Except PyErr Merged :=
  match stageAB dir dirs with
  | .error e => .error e
  | .ok acc =>
    match pySortedSetStr acc.tools with
    | .error e => .error e
    | .ok tools =>
      let prompts := dedupPrompts acc.prompts
      match pySortedSetStr acc.resources with
      | .error e => .error e
      | .ok resources =>
        match pySortedSetStr acc.resourceTemplates with
        | .error e => .error e
        | .ok rts =>
          match entryResolve dir dirs with
          | .error e => .error e
          | .ok ep =>
            .ok { publish := ⟨tools, prompts, resources, rts, ep⟩,
                  agents := acc.agents, mcpServers := acc.mcpServers }

/-!  ## Spec-side definitions

These two definitions follow the words of the spec, not the source; the
refinement theorems below compare the source-derived pipeline against
them. -/

/-- Modelled from the spec: "`publish.prompts` … preserves first-seen
order (not sorted) and contains each distinct value at most once". The
first occurrence of each value is kept, every later duplicate is
removed. -/
def specFirstSeenDedup : List String → List String
  | [] => []
  | x :: xs => x :: specFirstSeenDedup (xs.filter (fun y => y ≠ x))
termination_by l => l.length
decreasing_by
  exact Nat.lt_succ_of_le (List.length_filter_le _ _)

/-- Modelled from the spec (§4.4, amended by the truthiness
counterexample): among the scanned per-agent `publish.entrypoint`
declarations (in visit order), the last declared value is taken; if it is
falsy — or nothing was declared — the main manifest's declaration (if
any) replaces it; the aggregate carries the key only when the resulting
value is truthy. -/
def specEntrypoint (subDecls : List (Option Yaml)) (mainDecl : Option Yaml) :
    Option Yaml :=
  let lastd := subDecls.foldl (fun acc d => match d with
    | some v => some v
    | none => acc) none
  let cand := match lastd with
    | some v => if pyFalsy v then mainDecl else some v
    | none => mainDecl
  match cand with
  | some v => if pyFalsy v then none else some v
  | none => none

/-- A well-formed `mcpServers` entry value in the sense of the spec's
data model (§3): null, or a launch-declaration mapping with unique keys
whose `args` value — if any — is a list of strings. -/
def WfServer (v : Yaml) : Prop :=
  v = .nullV ∨
    ∃ skvs, v = .map skvs ∧ (skvs.map Prod.fst).Nodup ∧
      ∀ kv ∈ skvs, kv.1 = "args" →
        ∃ args, kv.2 = .list args ∧ ∀ a ∈ args, ∃ s, a = .str s

/-- Modelled from the spec (§4.2): for a non-null server mapping, a new
argument list in which every argument ending in the script-file suffix is
replaced by the path concatenation of (agents-root, agent name, original
argument) and every other argument passes through verbatim; null entries
and entries without an argument list are unchanged. -/
def specRewriteServer (dir name : String) : Yaml → Yaml
  | .map skvs =>
    .map (skvs.map (fun kv =>
      if kv.1 = "args" then
        (kv.1, match kv.2 with
          | .list args => .list (args.map (fun a => match a with
              | .str s => .str (adjustArg dir name s)
              | a => a))
          | v => v)
      else kv))
  | v => v


/-- The `publish.entrypoint` declaration of one loaded manifest mapping
(source line 108): `some v` when a `publish` value exists and contains
the `entrypoint` key. -/
def declOfDict (d : NanoDict) : Except PyErr (Option Yaml) :=
  match dictGet d "publish" with
  | none => .ok none
  | some p =>
    match pyIn "entrypoint" p with
    | .error e => .error e
    | .ok false => .ok none
    | .ok true =>
      match pyIdx p "entrypoint" with
      | .error e => .error e
      | .ok v => .ok (some v)

/-- The `publish.entrypoint` declaration of one agents-directory entry
(skipped when there is no manifest file). -/
def declOfDir (dir : String) : String × Option LoadResult → Except PyErr (Option Yaml)
  | (_, none) => .ok none
  | (name, some lr) =>
    match loadYaml (yamlPath dir name) lr with
    | .error e => .error e
    | .ok d => declOfDict d

/-- The root/main manifest's `publish.entrypoint` declaration (source
lines 110-113). -/
def mainDeclOf (dir : String) (dirs : AgentDirs) : Except PyErr (Option Yaml) :=
  match findMain dirs with
  | none => .ok none
  | some lr =>
    match loadYaml (yamlPath dir "app") lr with
    | .error e => .error e
    | .ok d => declOfDict d

/-!  ## List lemmas: sorted deduplication -/

theorem mem_insertUniq {a x : String} {l : List String} :
    a ∈ insertUniq x l ↔ a = x ∨ a ∈ l := by
  induction l with
  | nil => simp [insertUniq]
  | cons y ys ih =>
    by_cases hxy : x = y
    · subst hxy
      simp [insertUniq]
    · by_cases hlt : x < y
      · simp only [insertUniq, if_neg hxy, if_pos hlt, List.mem_cons]
      · simp only [insertUniq, if_neg hxy, if_neg hlt, List.mem_cons, ih]
        tauto

theorem pairwise_insertUniq {x : String} {l : List String}
    (h : l.Pairwise (· < ·)) : (insertUniq x l).Pairwise (· < ·) := by
  induction l with
  | nil => simp [insertUniq]
  | cons y ys ih =>
    rcases List.pairwise_cons.mp h with ⟨hy, hys⟩
    by_cases hxy : x = y
    · simpa [insertUniq, hxy] using h
    · by_cases hlt : x < y
      · simp only [insertUniq, if_neg hxy, if_pos hlt]
        refine List.pairwise_cons.mpr ⟨?_, h⟩
        intro b hb
        rcases List.mem_cons.mp hb with hb | hb
        · exact hb ▸ hlt
        · exact lt_trans hlt (hy b hb)
      · have hyx : y < x := by
          rcases lt_trichotomy x y with h1 | h1 | h1
          · exact absurd h1 hlt
          · exact absurd h1 hxy
          · exact h1
        simp only [insertUniq, if_neg hxy, if_neg hlt]
        refine List.pairwise_cons.mpr ⟨?_, ih hys⟩
        intro b hb
        rcases mem_insertUniq.mp hb with hb | hb
        · exact hb ▸ hyx
        · exact hy b hb

theorem pairwise_sortedDedup (l : List String) :
    (sortedDedup l).Pairwise (· < ·) := by
  induction l with
  | nil => simp [sortedDedup]
  | cons x xs ih => exact pairwise_insertUniq ih

theorem nodup_sortedDedup (l : List String) : (sortedDedup l).Nodup :=
  (pairwise_sortedDedup l).imp ne_of_lt

theorem mem_sortedDedup {a : String} {l : List String} :
    a ∈ sortedDedup l ↔ a ∈ l := by
  induction l with
  | nil => simp [sortedDedup]
  | cons x xs ih =>
    simp only [sortedDedup, mem_insertUniq, List.mem_cons, ih]

theorem count_sortedDedup_of_mem {a : String} {l : List String}
    (h : a ∈ l) : (sortedDedup l).count a = 1 :=
  List.count_eq_one_of_mem (nodup_sortedDedup l) (mem_sortedDedup.mpr h)

/-!  ## List lemmas: first-seen deduplication -/

theorem mem_specFirstSeenDedup {a : String} {l : List String} :
    a ∈ specFirstSeenDedup l ↔ a ∈ l := by
  induction l using specFirstSeenDedup.induct with
  | case1 => simp [specFirstSeenDedup]
  | case2 x xs ih =>
    rw [specFirstSeenDedup]
    simp only [List.mem_cons, ih, List.mem_filter]
    constructor
    · rintro (h | ⟨h, _⟩)
      · exact Or.inl h
      · exact Or.inr h
    · rintro (h | h)
      · exact Or.inl h
      · by_cases hax : a = x
        · exact Or.inl hax
        · exact Or.inr ⟨h, by simpa using hax⟩

theorem nodup_specFirstSeenDedup (l : List String) :
    (specFirstSeenDedup l).Nodup := by
  induction l using specFirstSeenDedup.induct with
  | case1 => simp [specFirstSeenDedup]
  | case2 x xs ih =>
    rw [specFirstSeenDedup]
    refine List.nodup_cons.mpr ⟨?_, ih⟩
    intro hmem
    have := List.mem_filter.mp (mem_specFirstSeenDedup.mp hmem)
    simp at this

theorem sublist_specFirstSeenDedup (l : List String) :
    List.Sublist (specFirstSeenDedup l) l := by
  induction l using specFirstSeenDedup.induct with
  | case1 => simp [specFirstSeenDedup]
  | case2 x xs ih =>
    rw [specFirstSeenDedup]
    exact List.Sublist.cons₂ x (ih.trans (List.filter_sublist xs))

theorem dedupPromptsAux_cons_none {p : Yaml} (h : promptNorm p = none)
    (rest : List Yaml) (seen : List String) :
    dedupPromptsAux (p :: rest) seen = dedupPromptsAux rest seen := by
  cases p with
  | str s => simp [promptNorm] at h
  | map kvs =>
    rcases kvs with _ | ⟨⟨k, v⟩, _ | ⟨⟨k2, v2⟩, r⟩⟩
    · rfl
    · simp [promptNorm] at h
    · rfl
  | nullV => rfl
  | bool b => rfl
  | int n => rfl
  | list xs => rfl

theorem dedupPromptsAux_cons_some {p : Yaml} {t : String} (h : promptNorm p = some t)
    (rest : List Yaml) (seen : List String) :
    dedupPromptsAux (p :: rest) seen =
      if t ∈ seen then dedupPromptsAux rest seen
      else t :: dedupPromptsAux rest (t :: seen) := by
  cases p with
  | str s =>
    have : s = t := by simpa [promptNorm] using h
    subst this
    rfl
  | map kvs =>
    rcases kvs with _ | ⟨⟨k, v⟩, _ | ⟨⟨k2, v2⟩, r⟩⟩
    · simp [promptNorm] at h
    · have : promptTemplate k v = t := by simpa [promptNorm] using h
      subst this
      rfl
    · simp [promptNorm] at h
  | nullV => simp [promptNorm] at h
  | bool b => simp [promptNorm] at h
  | int n => simp [promptNorm] at h
  | list xs => simp [promptNorm] at h

/-- The seen-set loop of source lines 83-96 computes exactly a first-seen
deduplication of the normalized prompt entries (restricted to the values
not already seen). -/
theorem dedupPromptsAux_eq_spec (ps : List Yaml) (seen : List String) :
    dedupPromptsAux ps seen =
      specFirstSeenDedup ((ps.filterMap promptNorm).filter (fun t => t ∉ seen)) := by
  induction ps generalizing seen with
  | nil => simp [dedupPromptsAux, specFirstSeenDedup]
  | cons p rest ih =>
    cases hn : promptNorm p with
    | none =>
      rw [dedupPromptsAux_cons_none hn, List.filterMap_cons_none hn]
      exact ih seen
    | some t =>
      rw [dedupPromptsAux_cons_some hn, List.filterMap_cons_some hn,
        List.filter_cons]
      by_cases hts : t ∈ seen
      · rw [if_pos hts, ih seen]
        simp [hts]
      · rw [if_neg hts]
        have hd : (decide (t ∉ seen)) = true := by simpa using hts
        rw [hd]
        simp only [if_pos]
        rw [specFirstSeenDedup, ih (t :: seen), List.filter_filter]
        congr 1
        congr 1
        apply List.filter_congr
        intro a ha
        by_cases h1 : a = t <;> by_cases h2 : a ∈ seen <;> simp [h1, h2]

/-- `unique_prompts` is the first-seen deduplication of the normalized
prompt entries. -/
theorem dedupPrompts_eq_spec (ps : List Yaml) :
    dedupPrompts ps = specFirstSeenDedup (ps.filterMap promptNorm) := by
  rw [dedupPrompts, dedupPromptsAux_eq_spec]
  congr 1
  apply List.filter_eq_self.mpr
  intro a ha
  simp

/-!  ## Inversion lemmas for a successful aggregation run -/

theorem pySortedSetStr_ok {xs : List Yaml} {out : List String}
    (h : pySortedSetStr xs = .ok out) :
    ∃ ss, yamlStrs xs = some ss ∧ out = sortedDedup ss := by
  unfold pySortedSetStr at h
  cases hy : yamlStrs xs with
  | none => rw [hy] at h; simp at h
  | some ss =>
    rw [hy] at h
    refine ⟨ss, rfl, ?_⟩
    injection h with h
    exact h.symm

/-- Shape of a successful `merge_nanobot_yamls` run: the raw fold
succeeded, all three sorted deduplications succeeded, the entrypoint was
resolved, and the aggregate is assembled from those pieces (the prompt
list being the seen-set deduplication of the raw prompt list). -/
theorem mergeRun_ok_inv {dir : String} {dirs : AgentDirs} {m : Merged}
    (h : mergeRun dir dirs = .ok m) :
    ∃ acc tools resources rts ep,
      stageAB dir dirs = .ok acc ∧
      pySortedSetStr acc.tools = .ok tools ∧
      pySortedSetStr acc.resources = .ok resources ∧
      pySortedSetStr acc.resourceTemplates = .ok rts ∧
      entryResolve dir dirs = .ok ep ∧
      m = ⟨⟨tools, dedupPrompts acc.prompts, resources, rts, ep⟩,
           acc.agents, acc.mcpServers⟩ := by
  unfold mergeRun at h
  cases h1 : stageAB dir dirs with
  | error e => rw [h1] at h; simp at h
  | ok acc =>
    simp only [h1] at h
    cases h2 : pySortedSetStr acc.tools with
    | error e => rw [h2] at h; simp at h
    | ok tools =>
      simp only [h2] at h
      cases h3 : pySortedSetStr acc.resources with
      | error e => rw [h3] at h; simp at h
      | ok resources =>
        simp only [h3] at h
        cases h4 : pySortedSetStr acc.resourceTemplates with
        | error e => rw [h4] at h; simp at h
        | ok rts =>
          simp only [h4] at h
          cases h5 : entryResolve dir dirs with
          | error e => rw [h5] at h; simp at h
          | ok ep =>
            simp only [h5] at h
            refine ⟨acc, tools, resources, rts, ep, rfl, h2, h3, h4, rfl, ?_⟩
            injection h with h
            exact h.symm

/-!  ## C1: aggregate prompts — first-seen order, deduplicated,
normalized -/

/-- **C1.**  For every run of `merge_nanobot_yamls`, the aggregate
`publish.prompts` is exactly the first-seen deduplication of the
normalized merged prompt entries (`promptNorm`: a string stands for
itself, a single-key mapping `{key: value}` for `value` when non-null and
for the literal template string `"{key}"` when null): it is duplicate
free, a subsequence of the normalized input (first-seen order, not
sorted), and contains exactly the normalized values. -/
theorem merge_prompts_first_seen_dedup (dir : String) (dirs : AgentDirs)
    (acc : RawAcc) (m : Merged)
    (hab : stageAB dir dirs = .ok acc) (h : mergeRun dir dirs = .ok m) :
    m.publish.prompts = specFirstSeenDedup (acc.prompts.filterMap promptNorm) ∧
    m.publish.prompts.Nodup ∧
    List.Sublist m.publish.prompts (acc.prompts.filterMap promptNorm) ∧
    ∀ t, t ∈ m.publish.prompts ↔ t ∈ acc.prompts.filterMap promptNorm := by
  obtain ⟨acc', tools, res, rts, ep, h1, _, _, _, _, hm⟩ := mergeRun_ok_inv h
  rw [hab] at h1
  injection h1 with h1
  subst h1
  subst hm
  refine ⟨dedupPrompts_eq_spec _, ?_, ?_, ?_⟩
  · rw [show (Merged.mk ⟨tools, dedupPrompts acc.prompts, res, rts, ep⟩
        acc.agents acc.mcpServers).publish.prompts = dedupPrompts acc.prompts from rfl,
      dedupPrompts_eq_spec]
    exact nodup_specFirstSeenDedup _
  · rw [show (Merged.mk ⟨tools, dedupPrompts acc.prompts, res, rts, ep⟩
        acc.agents acc.mcpServers).publish.prompts = dedupPrompts acc.prompts from rfl,
      dedupPrompts_eq_spec]
    exact sublist_specFirstSeenDedup _
  · intro t
    rw [show (Merged.mk ⟨tools, dedupPrompts acc.prompts, res, rts, ep⟩
        acc.agents acc.mcpServers).publish.prompts = dedupPrompts acc.prompts from rfl,
      dedupPrompts_eq_spec]
    exact mem_specFirstSeenDedup

/-- Witness for C1, at the spec's own example: agent `a` declares prompts
`["x", "y"]`, agent `b` declares `["y", "z"]`, and the aggregate prompts
are `["x", "y", "z"]` — first-seen order, `y` deduplicated. -/
theorem merge_prompts_first_seen_dedup_witness :
    stageAB "/w/agents"
        [("a", some (.parsed [("publish", .map [("prompts", .list [.str "x", .str "y"])])])),
         ("b", some (.parsed [("publish", .map [("prompts", .list [.str "y", .str "z"])])]))] =
      .ok ⟨[], [.str "x", .str "y", .str "y", .str "z"], [], [], [], []⟩ ∧
    mergeRun "/w/agents"
        [("a", some (.parsed [("publish", .map [("prompts", .list [.str "x", .str "y"])])])),
         ("b", some (.parsed [("publish", .map [("prompts", .list [.str "y", .str "z"])])]))] =
      .ok ⟨⟨[], ["x", "y", "z"], [], [], none⟩, [], []⟩ ∧
    (MergedPublish.mk [] ["x", "y", "z"] [] [] none).prompts =
      specFirstSeenDedup
        (([Yaml.str "x", .str "y", .str "y", .str "z"]).filterMap promptNorm) :=
  ⟨rfl, rfl,
    (merge_prompts_first_seen_dedup "/w/agents"
      [("a", some (.parsed [("publish", .map [("prompts", .list [.str "x", .str "y"])])])),
       ("b", some (.parsed [("publish", .map [("prompts", .list [.str "y", .str "z"])])]))]
      ⟨[], [.str "x", .str "y", .str "y", .str "z"], [], [], [], []⟩
      ⟨⟨[], ["x", "y", "z"], [], [], none⟩, [], []⟩ rfl rfl).1⟩

/-!  ## C2: aggregate tools / resources / resourceTemplates — sorted and
duplicate-free -/

/-- **C2.**  For every run of `merge_nanobot_yamls`, the aggregate
`publish.tools`, `publish.resources` and `publish.resourceTemplates` are
strictly sorted in the lexicographic string order (hence each value
occurs at most once). -/
theorem merge_capability_lists_sorted_unique (dir : String) (dirs : AgentDirs)
    (m : Merged) (h : mergeRun dir dirs = .ok m) :
    (m.publish.tools.Pairwise (· < ·) ∧ m.publish.tools.Nodup) ∧
    (m.publish.resources.Pairwise (· < ·) ∧ m.publish.resources.Nodup) ∧
    (m.publish.resourceTemplates.Pairwise (· < ·) ∧
      m.publish.resourceTemplates.Nodup) := by
  obtain ⟨acc, tools, res, rts, ep, _, h2, h3, h4, _, hm⟩ := mergeRun_ok_inv h
  subst hm
  obtain ⟨s2, _, e2⟩ := pySortedSetStr_ok h2
  obtain ⟨s3, _, e3⟩ := pySortedSetStr_ok h3
  obtain ⟨s4, _, e4⟩ := pySortedSetStr_ok h4
  subst e2; subst e3; subst e4
  exact ⟨⟨pairwise_sortedDedup s2, nodup_sortedDedup s2⟩,
    ⟨pairwise_sortedDedup s3, nodup_sortedDedup s3⟩,
    ⟨pairwise_sortedDedup s4, nodup_sortedDedup s4⟩⟩

/-- Witness for C2, at the spec's own example: two agents both declare
tool `"search"`; the aggregate tools hold `"search"` exactly once, and
the whole list is sorted (strictly, by the lexicographic string order). -/
theorem merge_capability_lists_sorted_unique_witness :
    mergeRun "/w/agents"
        [("a", some (.parsed [("publish", .map [("tools", .list [.str "search"])])])),
         ("b", some (.parsed [("publish", .map [("tools", .list [.str "search"])])]))] =
      .ok ⟨⟨["search"], [], [], [], none⟩, [], []⟩ ∧
    ((["search"] : List String).Pairwise (· < ·) ∧
      (["search"] : List String).Nodup) ∧
    (["search"] : List String).count "search" = 1 :=
  ⟨rfl,
    (merge_capability_lists_sorted_unique "/w/agents"
      [("a", some (.parsed [("publish", .map [("tools", .list [.str "search"])])])),
       ("b", some (.parsed [("publish", .map [("tools", .list [.str "search"])])]))]
      ⟨⟨["search"], [], [], [], none⟩, [], []⟩ rfl).1,
    by simp⟩

/-!  ## C3: path rewriting in `adjust_mcp_paths` -/

theorem dictGet_of_nodup_mem {skvs : NanoDict} {kv : String × Yaml}
    (hnd : (skvs.map Prod.fst).Nodup) (hmem : kv ∈ skvs) :
    dictGet skvs kv.1 = some kv.2 := by
  induction skvs with
  | nil => cases hmem
  | cons hd tl ih =>
    rcases List.mem_cons.mp hmem with h | h
    · subst h
      simp [dictGet]
    · have hne : hd.1 ≠ kv.1 := by
        intro he
        have : kv.1 ∈ tl.map Prod.fst := List.mem_map_of_mem Prod.fst h
        rw [List.map_cons, List.nodup_cons] at hnd
        exact hnd.1 (he ▸ this)
      simp only [dictGet, if_neg hne]
      exact ih (by rw [List.map_cons, List.nodup_cons] at hnd; exact hnd.2) h

theorem map_eq_self_of_eq {α : Type} {f : α → α} {l : List α}
    (h : ∀ x ∈ l, f x = x) : l.map f = l := by
  induction l with
  | nil => rfl
  | cons a t ih =>
    rw [List.map_cons, h a (List.mem_cons_self _ _),
      ih (fun x hx => h x (List.mem_cons_of_mem _ hx))]

theorem mapM_rewrite_of_strs {dir name : String} {args : List Yaml}
    (h : ∀ a ∈ args, ∃ s, a = .str s) :
    args.mapM (fun a => match a with
      | .str s => Except.ok (Yaml.str (adjustArg dir name s))
      | _ => Except.error (PyErr.attributeError "endswith")) =
    Except.ok (args.map (fun a => match a with
      | .str s => .str (adjustArg dir name s)
      | a => a)) := by
  induction args with
  | nil => rfl
  | cons a rest ih =>
    obtain ⟨s, hs⟩ := h a (List.mem_cons_self _ _)
    subst hs
    rw [List.mapM_cons, ih (fun b hb => h b (List.mem_cons_of_mem _ hb))]
    rfl

theorem adjustServer_wf {dir name : String} {v : Yaml} (hwf : WfServer v) :
    adjustServer dir name v = .ok (specRewriteServer dir name v) := by
  rcases hwf with rfl | ⟨skvs, rfl, hnd, hargs⟩
  · rfl
  · by_cases hemp : skvs.isEmpty
    · rcases skvs with _ | ⟨hd, tl⟩
      · rfl
      · simp [List.isEmpty] at hemp
    · have hfal : pyFalsy (.map skvs) = false := by
        simp [pyFalsy, hemp]
      by_cases hhas : skvs.any (fun kv => kv.1 == "args")
      · obtain ⟨kv, hkv, hk⟩ := List.any_eq_true.mp hhas
        have hk1 : kv.1 = "args" := by simpa using hk
        obtain ⟨args, hargseq, hstrs⟩ := hargs kv hkv hk1
        have hget : dictGet skvs "args" = some (.list args) := by
          have := dictGet_of_nodup_mem hnd hkv
          rw [hk1] at this
          rw [this, hargseq]
        unfold adjustServer
        rw [hfal]
        simp only [Bool.false_eq_true, if_false, pyIn, hhas]
        simp only [pyIdx, hget, pyIter]
        rw [mapM_rewrite_of_strs hstrs]
        simp only [specRewriteServer]
        congr 1
        congr 1
        rw [dictInsert, if_pos (by simp [dictHas, hget])]
        apply List.map_congr_left
        intro b hb
        by_cases hb1 : b.1 = "args"
        · have hbv : b.2 = Yaml.list args := by
            have h2 := dictGet_of_nodup_mem hnd hb
            rw [hb1] at h2
            rw [hget] at h2
            injection h2 with h2
            exact h2.symm
          rw [if_pos hb1, if_pos hb1, hb1, hbv]
        · rw [if_neg hb1, if_neg hb1]
      · unfold adjustServer
        rw [hfal]
        simp only [Bool.false_eq_true, if_false, pyIn, hhas]
        simp only [specRewriteServer]
        congr 1
        congr 1
        symm
        apply map_eq_self_of_eq
        intro b hb
        have hb1 : b.1 ≠ "args" := by
          intro he
          exact hhas (List.any_eq_true.mpr ⟨b, hb, by simp [he]⟩)
        rw [if_neg hb1]

/-- **C3.**  For every agent name and every `mcpServers` mapping whose
entries are null or launch-declaration mappings (string-list `args`),
`adjust_mcp_paths` succeeds and rewrites exactly the arguments ending in
`".py"` to the path concatenation (agents-root)/(agent-name)/argument,
passes all other arguments through verbatim, and leaves entries that are
null or lack an argument list unchanged; for a relative argument the path
concatenation is literally `dir ++ "/" ++ name ++ "/" ++ arg`, and a
non-`.py` argument is unchanged. -/
theorem adjust_mcp_paths_rewrites_py_args (dir name : String)
    (servers : NanoDict) (hwf : ∀ kv ∈ servers, WfServer kv.2) :
    adjustMcpPaths dir name servers =
      .ok (servers.map (fun kv => (kv.1, specRewriteServer dir name kv.2))) ∧
    (∀ s, pyStartsWith s "/" = false → pyStartsWith name "/" = false →
      pyEndsWith s ".py" = true →
      adjustArg dir name s = dir ++ "/" ++ name ++ "/" ++ s) ∧
    (∀ s, pyEndsWith s ".py" = false → adjustArg dir name s = s) := by
  refine ⟨?_, ?_, ?_⟩
  · unfold adjustMcpPaths
    induction servers with
    | nil => rfl
    | cons kv rest ih =>
      rw [List.mapM_cons, adjustServer_wf (hwf kv (List.mem_cons_self _ _))]
      have := ih (fun b hb => hwf b (List.mem_cons_of_mem _ hb))
      rw [List.map_cons]
      simp only [Except.map] at this ⊢
      rw [this]
      rfl
  · intro s hs hn hpy
    rw [adjustArg, if_pos hpy, pathJoin, if_neg (by simp [hs]), pathJoin,
      if_neg (by simp [hn])]
  · intro s hpy
    rw [adjustArg, if_neg (by simp [hpy])]

/-- Witness for C3, at the spec's own example: agent `"billing"`, one
server with args `["run", "tools.py"]` (rewritten to
`["run", "/w/agents/billing/tools.py"]`), one with args
`["run", "--flag", "value"]` (unchanged), one null entry (unchanged). -/
theorem adjust_mcp_paths_rewrites_py_args_witness :
    adjustMcpPaths "/w/agents" "billing"
        [("s", .map [("command", .str "uv"), ("args", .list [.str "run", .str "tools.py"])]),
         ("t", .map [("args", .list [.str "run", .str "--flag", .str "value"])]),
         ("u", .nullV)] =
      .ok [("s", .map [("command", .str "uv"),
                       ("args", .list [.str "run", .str "/w/agents/billing/tools.py"])]),
           ("t", .map [("args", .list [.str "run", .str "--flag", .str "value"])]),
           ("u", .nullV)] ∧
    adjustArg "/w/agents" "billing" "tools.py" = "/w/agents/billing/tools.py" ∧
    adjustArg "/w/agents" "billing" "--flag" = "--flag" := by
  have h := adjust_mcp_paths_rewrites_py_args "/w/agents" "billing"
    [("s", .map [("command", .str "uv"), ("args", .list [.str "run", .str "tools.py"])]),
     ("t", .map [("args", .list [.str "run", .str "--flag", .str "value"])]),
     ("u", .nullV)]
    (by
      intro kv hkv
      simp only [List.mem_cons, List.not_mem_nil, or_false] at hkv
      rcases hkv with rfl | rfl | rfl
      · refine Or.inr ⟨_, rfl, by decide, ?_⟩
        intro b hb hb1
        simp only [List.mem_cons, List.not_mem_nil, or_false] at hb
        rcases hb with rfl | rfl
        · exact absurd hb1 (by decide)
        · refine ⟨[.str "run", .str "tools.py"], rfl, ?_⟩
          intro a ha
          simp only [List.mem_cons, List.not_mem_nil, or_false] at ha
          rcases ha with rfl | rfl
          · exact ⟨_, rfl⟩
          · exact ⟨_, rfl⟩
      · refine Or.inr ⟨_, rfl, by decide, ?_⟩
        intro b hb hb1
        simp only [List.mem_cons, List.not_mem_nil, or_false] at hb
        rcases hb with rfl
        refine ⟨[.str "run", .str "--flag", .str "value"], rfl, ?_⟩
        intro a ha
        simp only [List.mem_cons, List.not_mem_nil, or_false] at ha
        rcases ha with rfl | rfl | rfl
        · exact ⟨_, rfl⟩
        · exact ⟨_, rfl⟩
        · exact ⟨_, rfl⟩
      · exact Or.inl rfl)
  refine ⟨?_, h.2.1 "tools.py" rfl rfl rfl, h.2.2 "--flag" rfl⟩
  rw [h.1]
  rfl

/-!  ## Dictionary and path lemmas -/

theorem dictHas_eq_any (d : NanoDict) (k : String) :
    dictHas d k = d.any (fun kv => kv.1 == k) := by
  induction d with
  | nil => rfl
  | cons hd tl ih =>
    obtain ⟨k', v⟩ := hd
    by_cases h : k' = k
    · simp [dictHas, dictGet, h]
    · simp only [dictHas, dictGet, if_neg h, List.any_cons]
      rw [← dictHas, ih]
      simp [h]

theorem dictGet_map_replace {k : String} (v : Yaml) :
    ∀ d : NanoDict, dictHas d k = true →
      dictGet (d.map (fun kv => if kv.1 = k then (k, v) else kv)) k = some v := by
  intro d
  induction d with
  | nil => intro h; exact absurd h (by simp [dictHas, dictGet])
  | cons hd tl ih =>
    intro h
    obtain ⟨k', v'⟩ := hd
    simp only [List.map_cons]
    by_cases hk : k' = k
    · subst hk
      simp [dictGet]
    · have htl : dictHas tl k = true := by
        simpa [dictHas, dictGet, hk] using h
      rw [if_neg hk]
      simp only [dictGet, if_neg hk]
      exact ih htl

theorem dictGet_dictInsert_self {d : NanoDict} {k : String} (v : Yaml)
    (h : dictHas d k = true) : dictGet (dictInsert d k v) k = some v := by
  rw [dictInsert, if_pos h]
  exact dictGet_map_replace v d h

theorem keys_dictInsert {d : NanoDict} {k : String} (v : Yaml)
    (h : dictHas d k = true) :
    (dictInsert d k v).map Prod.fst = d.map Prod.fst := by
  rw [dictInsert, if_pos h, List.map_map]
  apply List.map_congr_left
  intro kv _
  by_cases hk : kv.1 = k
  · simp [Function.comp, hk]
  · simp [Function.comp, hk]

theorem dictInsert_vals {d : NanoDict} {k : String} {v : Yaml}
    (h : dictHas d k = true) {kv : String × Yaml}
    (hm : kv ∈ dictInsert d k v) : kv.1 = k → kv.2 = v := by
  rw [dictInsert, if_pos h] at hm
  obtain ⟨pre, hpre, heq⟩ := List.mem_map.mp hm
  by_cases hk : pre.1 = k
  · rw [if_pos hk] at heq
    subst heq
    intro _
    rfl
  · rw [if_neg hk] at heq
    subst heq
    intro hkk
    exact absurd hkk hk

theorem dictInsert_self {d : NanoDict} {k : String} {v : Yaml}
    (h : dictHas d k = true) (hall : ∀ kv ∈ d, kv.1 = k → kv.2 = v) :
    dictInsert d k v = d := by
  rw [dictInsert, if_pos h]
  apply map_eq_self_of_eq
  intro kv hkv
  by_cases hk : kv.1 = k
  · rw [if_pos hk]
    obtain ⟨a, b⟩ := kv
    have h1 : a = k := hk
    have h2 : b = v := hall (a, b) hkv hk
    rw [h1, h2]
  · rw [if_neg hk]

theorem isEmpty_dictInsert {d : NanoDict} {k : String} {v : Yaml}
    (h : dictHas d k = true) :
    (dictInsert d k v).isEmpty = d.isEmpty := by
  rw [dictInsert, if_pos h]
  cases d <;> rfl

theorem pyStartsWith_append_left {a : String} (b : String)
    (h : pyStartsWith a "/" = true) : pyStartsWith (a ++ b) "/" = true := by
  unfold pyStartsWith at h ⊢
  rw [String.data_append]
  exact decide_eq_true ((of_decide_eq_true h).trans (List.prefix_append _ _))

theorem pathJoin_base_abs {dir : String} (name : String)
    (hdir : pyStartsWith dir "/" = true) :
    pyStartsWith (pathJoin dir name) "/" = true := by
  unfold pathJoin
  by_cases h : pyStartsWith name "/" = true
  · rw [if_pos h]
    exact h
  · rw [if_neg (by simpa using h)]
    exact pyStartsWith_append_left _ (pyStartsWith_append_left _ hdir)

theorem pathJoin_of_abs (base : String) {t : String}
    (h : pyStartsWith t "/" = true) : pathJoin base t = t := by
  rw [pathJoin, if_pos h]

theorem adjustArg_abs_of_py {dir s : String} (name : String)
    (hdir : pyStartsWith dir "/" = true) (hpy : pyEndsWith s ".py" = true) :
    pyStartsWith (adjustArg dir name s) "/" = true := by
  rw [adjustArg, if_pos hpy]
  by_cases h : pyStartsWith s "/" = true
  · rw [pathJoin_of_abs _ h]
    exact h
  · rw [pathJoin, if_neg (by simpa using h)]
    exact pyStartsWith_append_left _
      (pyStartsWith_append_left _ (pathJoin_base_abs name hdir))

/-- Because `AGENTS_DIR` is absolute and `pathlib`'s `/` returns an
absolute right operand unchanged, rewriting an already-rewritten argument
changes nothing. -/
theorem adjustArg_idem {dir name : String} (s : String)
    (hdir : pyStartsWith dir "/" = true) :
    adjustArg dir name (adjustArg dir name s) = adjustArg dir name s := by
  by_cases hpy : pyEndsWith s ".py" = true
  · have habs := adjustArg_abs_of_py name hdir hpy
    rw [adjustArg]
    by_cases h2 : pyEndsWith (adjustArg dir name s) ".py" = true
    · rw [if_pos h2, pathJoin_of_abs _ habs]
    · rw [if_neg (by simpa using h2)]
  · have hs : adjustArg dir name s = s := by
      rw [adjustArg, if_neg (by simpa using hpy)]
    rw [hs, hs]

/-!  ## Idempotence of the path rewrite (C5, C6) -/

theorem exbind_ok {α β : Type} (a : α) (f : α → Except PyErr β) :
    (Except.ok a >>= f) = f a := rfl

theorem exbind_err {α β : Type} (e : PyErr) (f : α → Except PyErr β) :
    ((Except.error e : Except PyErr α) >>= f) = .error e := rfl

theorem expure_eq {α : Type} (a : α) : (pure a : Except PyErr α) = .ok a := rfl

theorem mapM_rewrite_ok {dir name : String} {elems newArgs : List Yaml}
    (h : elems.mapM (fun a => match a with
        | .str s => Except.ok (Yaml.str (adjustArg dir name s))
        | _ => Except.error (PyErr.attributeError "endswith")) = .ok newArgs) :
    newArgs = elems.map (fun a => match a with
      | .str s => Yaml.str (adjustArg dir name s)
      | a => a) ∧
    ∀ a ∈ elems, ∃ s, a = Yaml.str s := by
  induction elems generalizing newArgs with
  | nil =>
    refine ⟨?_, by intro a ha; cases ha⟩
    injection h with h
    exact h.symm
  | cons a rest ih =>
    rw [List.mapM_cons] at h
    cases a with
    | str s =>
      cases hrest : rest.mapM (fun a => match a with
          | .str s => Except.ok (Yaml.str (adjustArg dir name s))
          | _ => Except.error (PyErr.attributeError "endswith")) with
      | error e =>
        rw [hrest] at h
        simp [exbind_ok, exbind_err, expure_eq] at h
      | ok tailArgs =>
        rw [hrest] at h
        simp only [exbind_ok, exbind_err, expure_eq] at h
        obtain ⟨htail, hstrs⟩ := ih hrest
        injection h with h
        refine ⟨?_, ?_⟩
        · rw [← h, List.map_cons, htail]
        · intro b hb
          rcases List.mem_cons.mp hb with rfl | hb
          · exact ⟨s, rfl⟩
          · exact hstrs b hb
    | nullV => simp [exbind_ok, exbind_err, expure_eq] at h
    | bool b => simp [exbind_ok, exbind_err, expure_eq] at h
    | int n => simp [exbind_ok, exbind_err, expure_eq] at h
    | list xs => simp [exbind_ok, exbind_err, expure_eq] at h
    | map kvs => simp [exbind_ok, exbind_err, expure_eq] at h

theorem mapM_rewrite_fixed {dir name : String} {l : List Yaml}
    (h : ∀ a ∈ l, ∃ t, a = Yaml.str t ∧ adjustArg dir name t = t) :
    l.mapM (fun a => match a with
      | .str s => Except.ok (Yaml.str (adjustArg dir name s))
      | _ => Except.error (PyErr.attributeError "endswith")) = .ok l := by
  induction l with
  | nil => rfl
  | cons a rest ih =>
    obtain ⟨t, rfl, hfix⟩ := h a (List.mem_cons_self _ _)
    rw [List.mapM_cons, ih (fun b hb => h b (List.mem_cons_of_mem _ hb))]
    simp [exbind_ok, exbind_err, expure_eq, hfix]

/-- A successful `adjust_mcp_paths` pass leaves nothing for a second pass
to do: the agents root is absolute, so every rewritten `.py` argument is
absolute, and `pathlib`'s `/` returns it unchanged. -/
theorem adjustServer_idem {dir name : String} {v r : Yaml}
    (hdir : pyStartsWith dir "/" = true)
    (h : adjustServer dir name v = .ok r) :
    adjustServer dir name r = .ok r := by
  unfold adjustServer at h
  by_cases hf : pyFalsy v = true
  · rw [if_pos hf] at h
    injection h with h
    subst h
    unfold adjustServer
    rw [if_pos hf]
  · rw [if_neg hf] at h
    cases hin : pyIn "args" v with
    | error e =>
      rw [hin] at h
      simp at h
    | ok b =>
      rw [hin] at h
      cases b with
      | false =>
        simp only at h
        injection h with h
        subst h
        unfold adjustServer
        rw [if_neg hf, hin]
      | true =>
        simp only at h
        cases hidx : pyIdx v "args" with
        | error e => rw [hidx] at h; simp at h
        | ok argsV =>
          simp only [hidx] at h
          cases hit : pyIter argsV with
          | error e => rw [hit] at h; simp at h
          | ok elems =>
            simp only [hit] at h
            cases hmap : elems.mapM (fun a => match a with
                | .str s => Except.ok (Yaml.str (adjustArg dir name s))
                | _ => Except.error (PyErr.attributeError "endswith")) with
            | error e => rw [hmap] at h; simp at h
            | ok newArgs =>
              simp only [hmap] at h
              cases v with
              | map skvs =>
                injection h with h
                obtain ⟨hnew, hstrs⟩ := mapM_rewrite_ok hmap
                have hhas : dictHas skvs "args" = true := by
                  rw [dictHas_eq_any]
                  simpa [pyIn] using hin
                have hnewfix : ∀ a ∈ newArgs, ∃ t, a = Yaml.str t ∧
                    adjustArg dir name t = t := by
                  intro a ha
                  rw [hnew] at ha
                  obtain ⟨b, hbmem, hb⟩ := List.mem_map.mp ha
                  obtain ⟨s, rfl⟩ := hstrs b hbmem
                  exact ⟨adjustArg dir name s, hb.symm, adjustArg_idem s hdir⟩
                subst h
                unfold adjustServer
                have hfal2 : pyFalsy (Yaml.map (dictInsert skvs "args"
                    (.list newArgs))) = false := by
                  simp only [pyFalsy, isEmpty_dictInsert hhas]
                  simpa [pyFalsy] using hf
                rw [if_neg (by simp [hfal2])]
                have hin2 : pyIn "args" (Yaml.map (dictInsert skvs "args"
                    (.list newArgs))) = .ok true := by
                  simp only [pyIn]
                  rw [← dictHas_eq_any]
                  congr 1
                  rw [dictHas]
                  rw [dictGet_dictInsert_self _ hhas]
                  rfl
                rw [hin2]
                simp only
                have hidx2 : pyIdx (Yaml.map (dictInsert skvs "args"
                    (.list newArgs))) "args" = .ok (.list newArgs) := by
                  simp only [pyIdx]
                  rw [dictGet_dictInsert_self _ hhas]
                rw [hidx2]
                simp only [pyIter]
                rw [mapM_rewrite_fixed hnewfix]
                simp only
                congr 2
                apply dictInsert_self
                · rw [dictHas]
                  rw [dictGet_dictInsert_self _ hhas]
                  rfl
                · intro kv hkv
                  exact dictInsert_vals hhas hkv
              | nullV => simp [pyIdx] at hidx
              | bool c => simp [pyIdx] at hidx
              | int n => simp [pyIdx] at hidx
              | str s => simp [pyIdx] at hidx
              | list xs => simp [pyIdx] at hidx

/-- Value-level idempotence of `adjust_mcp_paths` under an absolute
agents root. -/
theorem adjustMcpPaths_idem {dir name : String} {m r : NanoDict}
    (hdir : pyStartsWith dir "/" = true)
    (h : adjustMcpPaths dir name m = .ok r) :
    adjustMcpPaths dir name r = .ok r := by
  induction m generalizing r with
  | nil =>
    unfold adjustMcpPaths at h
    injection h with h
    subst h
    rfl
  | cons kv rest ih =>
    unfold adjustMcpPaths at h ⊢
    rw [List.mapM_cons] at h
    cases hs : adjustServer dir name kv.2 with
    | error e =>
      rw [hs] at h
      simp [Except.map, exbind_ok, exbind_err, expure_eq] at h
    | ok v' =>
      rw [hs] at h
      cases hrest : rest.mapM (fun kv =>
          (adjustServer dir name kv.2).map (fun v => (kv.1, v))) with
      | error e =>
        rw [hrest] at h
        simp [Except.map, exbind_ok, exbind_err, expure_eq] at h
      | ok r' =>
        rw [hrest] at h
        simp only [Except.map, exbind_ok, exbind_err, expure_eq] at h
        injection h with h
        subst h
        rw [List.mapM_cons]
        have hhead : adjustServer dir name ((kv.1, v') : String × Yaml).2 = .ok v' :=
          adjustServer_idem hdir hs
        rw [hhead]
        have htail := ih hrest
        unfold adjustMcpPaths at htail
        rw [htail]
        rfl

/-!  ## C5: `adjust_mcp_paths` is not pure — it mutates its argument -/

/-- **C5 counterexample.**  The source writes `server["args"] = new_args`
on the server dicts of its argument and returns that same dict object, so
the post-call state of the argument (the second component of
`adjustMcpRun`) equals the returned mapping — which differs from the
original input whenever a `.py` argument was rewritten.  The input is
therefore not left unmodified and the result is not a new structure. -/
theorem adjust_mcp_paths_mutates_input :
    adjustMcpRun "/w/agents" "billing"
        [("s", .map [("args", .list [.str "tools.py"])])] =
      .ok ([("s", .map [("args", .list [.str "/w/agents/billing/tools.py"])])],
           [("s", .map [("args", .list [.str "/w/agents/billing/tools.py"])])]) ∧
    ([("s", Yaml.map [("args", Yaml.list [.str "/w/agents/billing/tools.py"])])] :
        NanoDict) ≠
      [("s", .map [("args", .list [.str "tools.py"])])] :=
  ⟨rfl, fun hcon =>
    absurd (congrArg (fun d : NanoDict =>
      match d with
      | [(_, Yaml.map [(_, Yaml.list [Yaml.str s])])] => s
      | _ => "") hcon) (by decide)⟩

/-- **C5 amended.**  `adjust_mcp_paths` computes the path rewrite but not
purely: the returned mapping is the very argument object after its
in-place mutation, so after a successful call the argument's state equals
the returned mapping (and the return value is the rewrite of the
original input). -/
theorem adjust_mcp_paths_aliases_result (dir name : String)
    (servers : NanoDict) (out : NanoDict × NanoDict)
    (h : adjustMcpRun dir name servers = .ok out) :
    out.2 = out.1 ∧ adjustMcpPaths dir name servers = .ok out.1 := by
  unfold adjustMcpRun at h
  cases hp : adjustMcpPaths dir name servers with
  | error e =>
    rw [hp] at h
    simp [Except.map] at h
  | ok r =>
    rw [hp] at h
    simp only [Except.map] at h
    injection h with h
    subst h
    exact ⟨rfl, rfl⟩

/-- Witness for the amended C5 at a concrete input. -/
theorem adjust_mcp_paths_aliases_result_witness :
    adjustMcpRun "/w/agents" "billing"
        [("t", .map [("args", .list [.str "srv.py"])])] =
      .ok ([("t", .map [("args", .list [.str "/w/agents/billing/srv.py"])])],
           [("t", .map [("args", .list [.str "/w/agents/billing/srv.py"])])]) ∧
    ((([("t", Yaml.map [("args", Yaml.list [.str "/w/agents/billing/srv.py"])])],
       [("t", Yaml.map [("args", Yaml.list [.str "/w/agents/billing/srv.py"])])]) :
        NanoDict × NanoDict).2 =
      (([("t", Yaml.map [("args", Yaml.list [.str "/w/agents/billing/srv.py"])])],
        [("t", Yaml.map [("args", Yaml.list [.str "/w/agents/billing/srv.py"])])]) :
        NanoDict × NanoDict).1 ∧
      adjustMcpPaths "/w/agents" "billing"
          [("t", .map [("args", .list [.str "srv.py"])])] =
        .ok [("t", .map [("args", .list [.str "/w/agents/billing/srv.py"])])]) :=
  ⟨rfl, adjust_mcp_paths_aliases_result "/w/agents" "billing"
    [("t", .map [("args", .list [.str "srv.py"])])]
    ([("t", .map [("args", .list [.str "/w/agents/billing/srv.py"])])],
     [("t", .map [("args", .list [.str "/w/agents/billing/srv.py"])])]) rfl⟩

/-!  ## C6: `adjust_mcp_paths` does *not* re-prefix on a second run -/

/-- **C6 counterexample.**  There is no input on which a second
application of `adjust_mcp_paths` (with the absolute agents root the
source always uses, here `"/w/agents"`) changes its own output: every
rewritten `.py` argument is an absolute path, and `pathlib`'s `/`
returns an absolute right operand unchanged instead of re-prefixing
it. -/
theorem adjust_mcp_paths_second_run_no_change :
    ¬ ∃ (name : String) (m r₁ r₂ : NanoDict),
        adjustMcpPaths "/w/agents" name m = .ok r₁ ∧
        adjustMcpPaths "/w/agents" name r₁ = .ok r₂ ∧ r₂ ≠ r₁ := by
  rintro ⟨name, m, r₁, r₂, h1, h2, hne⟩
  have hidem := adjustMcpPaths_idem (by decide) h1
  have h3 := hidem.symm.trans h2
  injection h3 with h3
  exact hne h3.symm

/-- **C6 amended.**  `adjust_mcp_paths` is idempotent at the value
level: under the absolute agents root, applying it to its own output
reproduces that output exactly (no re-prefixing). -/
theorem adjust_mcp_paths_idempotent (dir name : String) (m r : NanoDict)
    (hdir : pyStartsWith dir "/" = true)
    (h : adjustMcpPaths dir name m = .ok r) :
    adjustMcpPaths dir name r = .ok r :=
  adjustMcpPaths_idem hdir h

/-- Witness for the amended C6: the double run on the spec's `"billing"`
example reproduces the first output. -/
theorem adjust_mcp_paths_idempotent_witness :
    pyStartsWith "/w/agents" "/" = true ∧
    adjustMcpPaths "/w/agents" "billing"
        [("s", .map [("args", .list [.str "run", .str "tools.py"])])] =
      .ok [("s", .map [("args",
        .list [.str "run", .str "/w/agents/billing/tools.py"])])] ∧
    adjustMcpPaths "/w/agents" "billing"
        [("s", .map [("args", .list [.str "run", .str "/w/agents/billing/tools.py"])])] =
      .ok [("s", .map [("args",
        .list [.str "run", .str "/w/agents/billing/tools.py"])])] :=
  ⟨rfl, rfl,
    adjust_mcp_paths_idempotent "/w/agents" "billing"
      [("s", .map [("args", .list [.str "run", .str "tools.py"])])]
      [("s", .map [("args", .list [.str "run", .str "/w/agents/billing/tools.py"])])]
      rfl rfl⟩

/-!  ## C4: handling of null / non-mapping `mcpServers` entries -/

theorem dictInsert_mem {d : NanoDict} {k : String} {v : Yaml}
    {kv : String × Yaml} (hm : kv ∈ dictInsert d k v) :
    kv ∈ d ∨ kv.2 = v := by
  unfold dictInsert at hm
  by_cases h : dictHas d k = true
  · rw [if_pos h] at hm
    obtain ⟨pre, hpre, heq⟩ := List.mem_map.mp hm
    by_cases hk : pre.1 = k
    · rw [if_pos hk] at heq
      subst heq
      exact Or.inr rfl
    · rw [if_neg hk] at heq
      subst heq
      exact Or.inl hpre
  · rw [if_neg h] at hm
    rcases List.mem_append.mp hm with hm | hm
    · exact Or.inl hm
    · rcases List.mem_cons.mp hm with rfl | hm
      · exact Or.inr rfl
      · cases hm

theorem mcpMergeFiltered_maps {adj : NanoDict} :
    ∀ {acc : NanoDict},
      (∀ kv ∈ acc, ∃ kvs, kv.2 = Yaml.map kvs) →
      ∀ kv ∈ mcpMergeFiltered acc adj, ∃ kvs, kv.2 = Yaml.map kvs := by
  induction adj with
  | nil => intro acc hacc kv hkv; exact hacc kv hkv
  | cons hd tl ih =>
    intro acc hacc kv hkv
    rw [mcpMergeFiltered, List.foldl_cons] at hkv
    cases hv : hd.2 with
    | map kvs2 =>
      rw [hv] at hkv
      refine ih ?_ kv hkv
      intro b hb
      rcases dictInsert_mem hb with hb | hb
      · exact hacc b hb
      · exact ⟨kvs2, hb⟩
    | nullV => rw [hv] at hkv; exact ih hacc kv hkv
    | bool c => rw [hv] at hkv; exact ih hacc kv hkv
    | int n => rw [hv] at hkv; exact ih hacc kv hkv
    | str s => rw [hv] at hkv; exact ih hacc kv hkv
    | list xs => rw [hv] at hkv; exact ih hacc kv hkv

theorem pubExtend_frame {acc acc2 : RawAcc} {p : Yaml}
    (h : pubExtend acc p = .ok acc2) :
    acc2.agents = acc.agents ∧ acc2.mcpServers = acc.mcpServers := by
  unfold pubExtend at h
  cases h1 : pubExtendField p "tools" acc.tools with
  | error e => rw [h1] at h; simp at h
  | ok tools =>
    rw [h1] at h
    cases h2 : pubExtendField p "prompts" acc.prompts with
    | error e => rw [h2] at h; simp at h
    | ok prompts =>
      rw [h2] at h
      cases h3 : pubExtendField p "resources" acc.resources with
      | error e => rw [h3] at h; simp at h
      | ok resources =>
        rw [h3] at h
        cases h4 : pubExtendField p "resourceTemplates" acc.resourceTemplates with
        | error e => rw [h4] at h; simp at h
        | ok rts =>
          rw [h4] at h
          injection h with h
          subst h
          exact ⟨rfl, rfl⟩

theorem agentFold_mcp_maps {dir name : String} {acc acc1 : RawAcc}
    {olr : Option LoadResult}
    (hinv : ∀ kv ∈ acc.mcpServers, ∃ kvs, kv.2 = Yaml.map kvs)
    (h : agentFold dir acc name olr = .ok acc1) :
    ∀ kv ∈ acc1.mcpServers, ∃ kvs, kv.2 = Yaml.map kvs := by
  cases olr with
  | none =>
    simp only [agentFold] at h
    injection h with h
    subst h
    exact hinv
  | some lr =>
    simp only [agentFold] at h
    cases hl : loadYaml (yamlPath dir name) lr with
    | error e => rw [hl] at h; simp at h
    | ok ay =>
      rw [hl] at h
      simp only at h
      set step1 : Except PyErr RawAcc :=
        (match dictGet ay "publish" with
         | none => .ok acc
         | some p => pubExtend acc p) with hstep1
      cases hs1 : step1 with
      | error e => rw [hs1] at h; simp at h
      | ok accB =>
        rw [hs1] at h
        simp only at h
        have hB : accB.mcpServers = acc.mcpServers := by
          rw [hstep1] at hs1
          cases hg : dictGet ay "publish" with
          | none =>
            rw [hg] at hs1
            injection hs1 with hs1
            subst hs1
            rfl
          | some p =>
            rw [hg] at hs1
            exact (pubExtend_frame hs1).2
        set step2 : Except PyErr RawAcc :=
          (match dictGet ay "agents" with
           | none => .ok accB
           | some (.map kvs) => .ok { accB with agents := dictUpdate accB.agents kvs }
           | some _ => .error (.typeError "update")) with hstep2
        cases hs2 : step2 with
        | error e => rw [hs2] at h; simp at h
        | ok accC =>
          rw [hs2] at h
          simp only at h
          have hC : accC.mcpServers = acc.mcpServers := by
            rw [hstep2] at hs2
            cases hg : dictGet ay "agents" with
            | none =>
              rw [hg] at hs2
              injection hs2 with hs2
              subst hs2
              exact hB
            | some v =>
              rw [hg] at hs2
              cases v with
              | map kvs =>
                injection hs2 with hs2
                subst hs2
                exact hB
              | nullV => simp at hs2
              | bool c => simp at hs2
              | int n => simp at hs2
              | str s => simp at hs2
              | list xs => simp at hs2
          cases hg : dictGet ay "mcpServers" with
          | none =>
            rw [hg] at h
            injection h with h
            subst h
            rw [hC]
            exact hinv
          | some v =>
            rw [hg] at h
            cases v with
            | map kvs =>
              simp only at h
              cases ha : adjustMcpPaths dir name kvs with
              | error e => rw [ha] at h; simp at h
              | ok adj =>
                rw [ha] at h
                injection h with h
                subst h
                intro kv hkv
                exact mcpMergeFiltered_maps (hC ▸ hinv) kv hkv
            | nullV => simp at h
            | bool c => simp at h
            | int n => simp at h
            | str s => simp at h
            | list xs => simp at h

theorem stageAgents_mcp_maps {dir : String} {dirs : AgentDirs} :
    ∀ {acc acc' : RawAcc},
      (∀ kv ∈ acc.mcpServers, ∃ kvs, kv.2 = Yaml.map kvs) →
      stageAgents dir acc dirs = .ok acc' →
      ∀ kv ∈ acc'.mcpServers, ∃ kvs, kv.2 = Yaml.map kvs := by
  induction dirs with
  | nil =>
    intro acc acc' hinv h
    injection h with h
    subst h
    exact hinv
  | cons hd tl ih =>
    intro acc acc' hinv h
    obtain ⟨name, olr⟩ := hd
    rw [stageAgents] at h
    cases hf : agentFold dir acc name olr with
    | error e => rw [hf] at h; simp at h
    | ok acc1 =>
      rw [hf] at h
      exact ih (agentFold_mcp_maps hinv hf) h

/-- **C4 counterexample.**  (a) A null `mcpServers` entry in the
root/main (`app`) manifest *is* copied into the aggregate: the main
manifest's `mcpServers` dict is merged with `dict.update` and no
null/non-mapping filter (source line 53), so the aggregate does contain
the `disabled_server` key, contradicting "this holds for every manifest
merged, including the root/main agent's manifest".  (b) A *truthy*
non-mapping entry in a subordinate manifest makes aggregation raise
(`"args" in 5` is a `TypeError`), contradicting "aggregation does not
raise" for entries that are "not a mapping". -/
theorem main_null_mcp_entry_kept :
    (mergeRun "/w/agents"
        [("app", some (.parsed [("mcpServers", .map [("disabled_server", .nullV)])]))]).map
        (fun m => m.mcpServers) =
      .ok [("disabled_server", Yaml.nullV)] ∧
    mergeRun "/w/agents"
        [("s1", some (.parsed [("mcpServers", .map [("srv", .int 5)])]))] =
      .error (.typeError "argument of type is not iterable") :=
  ⟨rfl, rfl⟩

/-- **C4 amended.**  The null/non-mapping skip governs only the
subordinate-agent loop: in a run whose agents directory has no `app`
manifest, every value in the aggregate `mcpServers` is a mapping (null
and other non-mapping values produce no key), and such a run does not
raise on null entries; the root/main manifest's `mcpServers` entries
bypass the filter, and truthy non-mapping subordinate entries can raise
`TypeError`. -/
theorem mcp_null_skip_subordinates_only (dir : String) (dirs : AgentDirs)
    (m : Merged) (hmain : findMain dirs = none)
    (h : mergeRun dir dirs = .ok m) :
    ∀ kv ∈ m.mcpServers, ∃ kvs, kv.2 = Yaml.map kvs := by
  obtain ⟨acc, tools, res, rts, ep, hab, _, _, _, _, hm⟩ := mergeRun_ok_inv h
  subst hm
  unfold stageAB at hab
  unfold stageMain at hab
  rw [hmain] at hab
  simp only at hab
  exact stageAgents_mcp_maps (by intro kv hkv; cases hkv) hab

/-- Witness for the amended C4, at the spec's own example: a subordinate
manifest with `{"disabled_server": null, "good": {...}}` aggregates
without error to an `mcpServers` map holding only `good` — the null
entry produces no key. -/
theorem mcp_null_skip_subordinates_only_witness :
    findMain [("a", some (.parsed
        [("mcpServers", .map [("disabled_server", .nullV),
                              ("good", .map [("command", .str "uv")])])]))] = none ∧
    mergeRun "/w/agents"
        [("a", some (.parsed
          [("mcpServers", .map [("disabled_server", .nullV),
                                ("good", .map [("command", .str "uv")])])]))] =
      .ok ⟨⟨[], [], [], [], none⟩, [],
           [("good", .map [("command", .str "uv")])]⟩ ∧
    (∀ kv ∈ ([("good", Yaml.map [("command", Yaml.str "uv")])] : NanoDict),
      ∃ kvs, kv.2 = Yaml.map kvs) ∧
    dictHas [("good", Yaml.map [("command", Yaml.str "uv")])] "disabled_server" = false :=
  ⟨rfl, rfl,
    mcp_null_skip_subordinates_only "/w/agents"
      [("a", some (.parsed
        [("mcpServers", .map [("disabled_server", .nullV),
                              ("good", .map [("command", .str "uv")])])]))]
      ⟨⟨[], [], [], [], none⟩, [], [("good", .map [("command", .str "uv")])]⟩
      rfl rfl,
    rfl⟩

/-!  ## C7: a malformed manifest aborts the whole run -/

theorem stageAgents_append (dir : String) (acc : RawAcc) (l1 l2 : AgentDirs) :
    stageAgents dir acc (l1 ++ l2) =
      match stageAgents dir acc l1 with
      | .error e => .error e
      | .ok acc' => stageAgents dir acc' l2 := by
  induction l1 generalizing acc with
  | nil => rfl
  | cons hd tl ih =>
    obtain ⟨name, olr⟩ := hd
    rw [List.cons_append, stageAgents, stageAgents]
    cases agentFold dir acc name olr with
    | error e => rfl
    | ok acc1 => exact ih acc1

/-- **C7.**  When the agents directory splits as `pre ++ bad :: post`
where agent `name`'s manifest file is syntactically invalid and the main
fold and the agents preceding it process cleanly, the whole
`merge_nanobot_yamls` run fails with the parse error naming that agent's
manifest path (`<agents-root>/<name>/nanobot.yaml`).  The run therefore
produces no aggregate manifest — the output file, written only at the
very end of a successful run, is not touched. -/
theorem malformed_manifest_aborts_with_path (dir : String)
    (dirs pre post : AgentDirs) (name : String) (accA accB : RawAcc)
    (hsplit : dirs = pre ++ (name, some .malformed) :: post)
    (hmain : stageMain dir dirs initAcc = .ok accA)
    (hpre : stageAgents dir accA pre = .ok accB) :
    mergeRun dir dirs = .error (.parseError (yamlPath dir name)) := by
  have hab : stageAB dir dirs = .error (.parseError (yamlPath dir name)) := by
    unfold stageAB
    simp only [hmain]
    rw [hsplit, stageAgents_append]
    simp only [hpre]
    rfl
  unfold mergeRun
  rw [hab]

/-- Witness for C7: one well-formed agent followed by one malformed
manifest; the run aborts with the malformed agent's path and yields no
aggregate. -/
theorem malformed_manifest_aborts_with_path_witness :
    ([("ok1", some (.parsed [])), ("bad", some .malformed)] : AgentDirs) =
      [("ok1", some (.parsed []))] ++ ("bad", some LoadResult.malformed) :: [] ∧
    stageMain "/w/agents" [("ok1", some (.parsed [])), ("bad", some .malformed)]
      initAcc = .ok initAcc ∧
    stageAgents "/w/agents" initAcc [("ok1", some (.parsed []))] = .ok initAcc ∧
    mergeRun "/w/agents" [("ok1", some (.parsed [])), ("bad", some .malformed)] =
      .error (.parseError "/w/agents/bad/nanobot.yaml") :=
  ⟨rfl, rfl, rfl,
    malformed_manifest_aborts_with_path "/w/agents"
      [("ok1", some (.parsed [])), ("bad", some .malformed)]
      [("ok1", some (.parsed []))] [] "bad" initAcc initAcc rfl rfl rfl⟩

/-!  ## C10: entries that are neither strings nor single-key mappings
are silently dropped from the prompts -/

/-- **C10.**  A merged prompt entry that normalizes to nothing — neither
a string nor a mapping with exactly one key (e.g. a two-key mapping, a
number, a list, null, a boolean) — is silently dropped by the prompt
deduplication loop: removing it from the merged prompt list (at any
position, under any `seen` set) leaves the computed `unique_prompts`
unchanged, and the loop is total, so no error is raised. -/
theorem non_prompt_shaped_entries_dropped (p : Yaml)
    (hp : promptNorm p = none) :
    (∀ (l1 l2 : List Yaml) (seen : List String),
      dedupPromptsAux (l1 ++ p :: l2) seen = dedupPromptsAux (l1 ++ l2) seen) ∧
    ∀ ps : List Yaml, dedupPrompts (ps ++ [p]) = dedupPrompts ps := by
  have hmain : ∀ (l1 l2 : List Yaml) (seen : List String),
      dedupPromptsAux (l1 ++ p :: l2) seen = dedupPromptsAux (l1 ++ l2) seen := by
    intro l1
    induction l1 with
    | nil =>
      intro l2 seen
      exact dedupPromptsAux_cons_none hp l2 seen
    | cons q rest ih =>
      intro l2 seen
      cases hq : promptNorm q with
      | none =>
        rw [List.cons_append, List.cons_append, dedupPromptsAux_cons_none hq,
          dedupPromptsAux_cons_none hq]
        exact ih l2 seen
      | some t =>
        rw [List.cons_append, List.cons_append, dedupPromptsAux_cons_some hq,
          dedupPromptsAux_cons_some hq]
        by_cases hts : t ∈ seen
        · rw [if_pos hts, if_pos hts]
          exact ih l2 seen
        · rw [if_neg hts, if_neg hts, ih l2 (t :: seen)]
  refine ⟨hmain, ?_⟩
  intro ps
  have := hmain ps [] []
  simpa [dedupPrompts] using this

/-- Witness for C10: an integer, a two-key mapping and an empty list in
the merged prompts are all dropped without error; the aggregate prompt
list of the full run keeps only the string and single-key entries. -/
theorem non_prompt_shaped_entries_dropped_witness :
    promptNorm (Yaml.int 7) = none ∧
    dedupPrompts [Yaml.int 7, .str "x"] = dedupPrompts [Yaml.str "x"] ∧
    dedupPrompts [Yaml.str "x", .int 7] = dedupPrompts [Yaml.str "x"] ∧
    (mergeRun "/w/agents"
        [("a", some (.parsed [("publish", .map [("prompts",
          .list [.int 7, .map [("a", .nullV), ("b", .nullV)], .list [],
                 .str "x", .map [("greet", .str "hello")],
                 .map [("tmpl", .nullV)]])])]))]).map
      (fun m => m.publish.prompts) = .ok ["x", "hello", "\x7btmpl\x7d"] :=
  ⟨rfl,
    (non_prompt_shaped_entries_dropped (Yaml.int 7) rfl).1 [] [.str "x"] [],
    (non_prompt_shaped_entries_dropped (Yaml.int 7) rfl).2 [Yaml.str "x"],
    rfl⟩

/-!  ## C9: bare `publish` lists -/

theorem pubExtend_list_skip {acc : RawAcc} {xs : List Yaml}
    (h1 : listHasStrElem xs "tools" = false)
    (h2 : listHasStrElem xs "prompts" = false)
    (h3 : listHasStrElem xs "resources" = false)
    (h4 : listHasStrElem xs "resourceTemplates" = false) :
    pubExtend acc (.list xs) = .ok acc := by
  unfold pubExtend pubExtendField
  simp only [pyIn, h1, h2, h3, h4]

theorem entryStep_list_skip {dir name : String} {acc : Option Yaml}
    {xs : List Yaml} (h5 : listHasStrElem xs "entrypoint" = false) :
    entryStep dir acc name (some (.parsed [("publish", Yaml.list xs)])) = .ok acc := by
  unfold entryStep
  simp only [loadYaml]
  rw [show dictGet [("publish", Yaml.list xs)] "publish" = some (Yaml.list xs) from rfl]
  simp only [pyIn, h5]

theorem bareListSubRun (dir name : String) (xs : List Yaml)
    (hname : name ≠ "app")
    (h1 : listHasStrElem xs "tools" = false)
    (h2 : listHasStrElem xs "prompts" = false)
    (h3 : listHasStrElem xs "resources" = false)
    (h4 : listHasStrElem xs "resourceTemplates" = false)
    (h5 : listHasStrElem xs "entrypoint" = false) :
    mergeRun dir [(name, some (.parsed [("publish", .list xs)]))] =
      .ok ⟨⟨[], [], [], [], none⟩, [], []⟩ := by
  have hfm : findMain [(name, some (LoadResult.parsed [("publish", Yaml.list xs)]))] =
      none := by
    unfold findMain
    rw [if_neg hname]
    rfl
  have hfold : agentFold dir initAcc name (some (.parsed [("publish", .list xs)])) =
      .ok initAcc := by
    have he : agentFold dir initAcc name (some (.parsed [("publish", .list xs)])) =
        (match pubExtend initAcc (.list xs) with
         | .error e => .error e
         | .ok acc => .ok acc) := rfl
    rw [he, pubExtend_list_skip h1 h2 h3 h4]
  have hab : stageAB dir [(name, some (.parsed [("publish", .list xs)]))] =
      .ok initAcc := by
    unfold stageAB stageMain
    rw [hfm]
    simp only
    rw [stageAgents]
    simp only [hfold]
    rfl
  have her : entryResolve dir [(name, some (.parsed [("publish", .list xs)]))] =
      .ok none := by
    unfold entryResolve
    rw [show entryScan dir none
          [(name, some (LoadResult.parsed [("publish", Yaml.list xs)]))] =
        (match entryStep dir none name
            (some (LoadResult.parsed [("publish", Yaml.list xs)])) with
         | .error e => .error e
         | .ok acc' => entryScan dir acc' []) from rfl]
    rw [entryStep_list_skip h5]
    simp only [entryScan, entryTruthy, Bool.not_true, hfm]
    rfl
  unfold mergeRun
  simp only [hab, her]
  rfl

theorem bareListMainRun (dir : String) (xs : List Yaml) (ss : List String)
    (h1 : listHasStrElem xs "tools" = false)
    (h2 : listHasStrElem xs "prompts" = false)
    (h3 : listHasStrElem xs "resources" = false)
    (h4 : listHasStrElem xs "resourceTemplates" = false)
    (h5 : listHasStrElem xs "entrypoint" = false)
    (hstr : yamlStrs xs = some ss) :
    mergeRun dir [("app", some (.parsed [("publish", .list xs)]))] =
      .ok ⟨⟨sortedDedup ss, [], [], [], none⟩, [], []⟩ := by
  have hsm : stageMain dir [("app", some (.parsed [("publish", .list xs)]))] initAcc =
      .ok ⟨xs, [], [], [], [], []⟩ := rfl
  have hfold : agentFold dir ⟨xs, [], [], [], [], []⟩ "app"
      (some (.parsed [("publish", .list xs)])) = .ok ⟨xs, [], [], [], [], []⟩ := by
    have he : agentFold dir ⟨xs, [], [], [], [], []⟩ "app"
        (some (.parsed [("publish", .list xs)])) =
        (match pubExtend ⟨xs, [], [], [], [], []⟩ (.list xs) with
         | .error e => .error e
         | .ok acc => .ok acc) := rfl
    rw [he, pubExtend_list_skip h1 h2 h3 h4]
  have hab : stageAB dir [("app", some (.parsed [("publish", .list xs)]))] =
      .ok ⟨xs, [], [], [], [], []⟩ := by
    unfold stageAB
    simp only [hsm]
    rw [stageAgents]
    simp only [hfold]
    rfl
  have her : entryResolve dir [("app", some (.parsed [("publish", .list xs)]))] =
      .ok none := by
    unfold entryResolve
    rw [show entryScan dir none
          [("app", some (LoadResult.parsed [("publish", Yaml.list xs)]))] =
        (match entryStep dir none "app"
            (some (LoadResult.parsed [("publish", Yaml.list xs)])) with
         | .error e => .error e
         | .ok acc' => entryScan dir acc' []) from rfl]
    rw [entryStep_list_skip h5]
    simp only [entryScan, entryTruthy]
    rw [show findMain [("app", some (LoadResult.parsed [("publish", Yaml.list xs)]))] =
        some (LoadResult.parsed [("publish", Yaml.list xs)]) from rfl]
    simp only [loadYaml]
    rw [show dictGet [("publish", Yaml.list xs)] "publish" = some (Yaml.list xs) from rfl]
    simp only [pyIn, h5]
    rfl
  have hsort : pySortedSetStr ((⟨xs, [], [], [], [], []⟩ : RawAcc).tools) =
      .ok (sortedDedup ss) := by
    unfold pySortedSetStr
    rw [show ((⟨xs, [], [], [], [], []⟩ : RawAcc).tools) = xs from rfl, hstr]
  unfold mergeRun
  simp only [hab, hsort, her]
  rfl

/-- **C9 counterexample.**  A subordinate manifest whose `publish` key
holds the bare list `["search"]` contributes nothing: the source tests
`"tools" in agent_yaml["publish"]` — list *membership*, not a key test —
so the aggregate tools stay empty instead of containing `"search"`. -/
theorem subordinate_bare_publish_list_ignored :
    (mergeRun "/w/agents"
        [("a", some (.parsed [("publish", .list [.str "search"])]))]).map
      (fun m => m.publish.tools) = .ok [] ∧
    ([] : List String) ≠ ["search"] :=
  ⟨rfl, by simp⟩

/-- **C9 amended.**  Only the root/main manifest's bare `publish` list is
folded into the aggregate tools (with equivalent semantics); a
subordinate manifest's bare `publish` list is ignored without error —
provided the list does not contain the literal key strings
`tools`/`prompts`/`resources`/`resourceTemplates`/`entrypoint`, whose
membership would make the source index the list with a string key and
raise `TypeError`. -/
theorem bare_publish_list_semantics :
    (∀ (dir name : String) (xs : List Yaml), name ≠ "app" →
      listHasStrElem xs "tools" = false →
      listHasStrElem xs "prompts" = false →
      listHasStrElem xs "resources" = false →
      listHasStrElem xs "resourceTemplates" = false →
      listHasStrElem xs "entrypoint" = false →
      mergeRun dir [(name, some (.parsed [("publish", .list xs)]))] =
        .ok ⟨⟨[], [], [], [], none⟩, [], []⟩) ∧
    ∀ (dir : String) (xs : List Yaml) (ss : List String),
      listHasStrElem xs "tools" = false →
      listHasStrElem xs "prompts" = false →
      listHasStrElem xs "resources" = false →
      listHasStrElem xs "resourceTemplates" = false →
      listHasStrElem xs "entrypoint" = false →
      yamlStrs xs = some ss →
      mergeRun dir [("app", some (.parsed [("publish", .list xs)]))] =
        .ok ⟨⟨sortedDedup ss, [], [], [], none⟩, [], []⟩ :=
  ⟨bareListSubRun, bareListMainRun⟩

/-- Witness for the amended C9: the subordinate run with bare list
`["search"]` yields an empty aggregate, the main run with the same bare
list yields tools `["search"]`. -/
theorem bare_publish_list_semantics_witness :
    mergeRun "/w/agents" [("a", some (.parsed [("publish", .list [.str "search"])]))] =
      .ok ⟨⟨[], [], [], [], none⟩, [], []⟩ ∧
    mergeRun "/w/agents" [("app", some (.parsed [("publish", .list [.str "search"])]))] =
      .ok ⟨⟨sortedDedup ["search"], [], [], [], none⟩, [], []⟩ ∧
    sortedDedup ["search"] = ["search"] :=
  ⟨bare_publish_list_semantics.1 "/w/agents" "a" [.str "search"]
      (by decide) rfl rfl rfl rfl rfl,
    bare_publish_list_semantics.2 "/w/agents" [.str "search"] ["search"]
      rfl rfl rfl rfl rfl rfl,
    rfl⟩

/-!  ## C8: entrypoint resolution -/

theorem entryStep_eq (dir : String) (acc : Option Yaml) (name : String)
    (olr : Option LoadResult) :
    entryStep dir acc name olr =
      (declOfDir dir (name, olr)).map (fun d =>
        match d with
        | some v => some v
        | none => acc) := by
  cases olr with
  | none => rfl
  | some lr =>
    cases lr with
    | malformed => rfl
    | parsed d =>
      unfold entryStep declOfDir declOfDict
      simp only [loadYaml]
      cases hg : dictGet d "publish" with
      | none => rfl
      | some p =>
        dsimp only
        cases hin : pyIn "entrypoint" p with
        | error e => rfl
        | ok b =>
          cases b with
          | false => rfl
          | true =>
            dsimp only
            cases hidx : pyIdx p "entrypoint" with
            | error e => rfl
            | ok v => rfl

theorem entryScan_eq (dir : String) :
    ∀ (dirs : AgentDirs) (acc : Option Yaml) (decls : List (Option Yaml)),
      dirs.mapM (declOfDir dir) = .ok decls →
      entryScan dir acc dirs =
        .ok (decls.foldl (fun a d => match d with
          | some v => some v
          | none => a) acc) := by
  intro dirs
  induction dirs with
  | nil =>
    intro acc decls h
    injection h with h
    subst h
    rfl
  | cons hd tl ih =>
    intro acc decls h
    rw [List.mapM_cons] at h
    cases hh : declOfDir dir hd with
    | error e =>
      rw [hh] at h
      simp [exbind_ok, exbind_err, expure_eq] at h
    | ok d0 =>
      rw [hh] at h
      simp only [exbind_ok] at h
      cases ht : tl.mapM (declOfDir dir) with
      | error e =>
        rw [ht] at h
        simp [exbind_ok, exbind_err, expure_eq] at h
      | ok ds =>
        rw [ht] at h
        simp only [exbind_ok, expure_eq] at h
        injection h with h
        subst h
        obtain ⟨name, olr⟩ := hd
        rw [entryScan]
        rw [entryStep_eq dir acc name olr, hh]
        simp only [Except.map, List.foldl_cons]
        exact ih _ ds ht

theorem declOfDict_override (d : NanoDict) (acc : Option Yaml) :
    (match dictGet d "publish" with
     | none => Except.ok acc
     | some p =>
       match pyIn "entrypoint" p with
       | .error e => .error e
       | .ok false => .ok acc
       | .ok true =>
         match pyIdx p "entrypoint" with
         | .error e => .error e
         | .ok v => .ok (some v)) =
      (declOfDict d).map (fun x => match x with
        | some v => some v
        | none => acc) := by
  unfold declOfDict
  cases dictGet d "publish" with
  | none => rfl
  | some p =>
    dsimp only
    cases pyIn "entrypoint" p with
    | error e => rfl
    | ok b =>
      cases b with
      | false => rfl
      | true =>
        dsimp only
        cases pyIdx p "entrypoint" with
        | error e => rfl
        | ok v => rfl

theorem entryResolve_eq_spec {dir : String} {dirs : AgentDirs}
    {decls : List (Option Yaml)} {mainE : Option Yaml}
    (hd : dirs.mapM (declOfDir dir) = .ok decls)
    (hm : mainDeclOf dir dirs = .ok mainE) :
    entryResolve dir dirs = .ok (specEntrypoint decls mainE) := by
  unfold entryResolve
  rw [entryScan_eq dir dirs none decls hd]
  dsimp only
  unfold specEntrypoint
  cases he0 : decls.foldl (fun a d => match d with
      | some v => some v
      | none => a) none with
  | none =>
    rw [if_neg (by simp [entryTruthy])]
    cases hfm : findMain dirs with
    | none =>
      unfold mainDeclOf at hm
      rw [hfm] at hm
      injection hm with hm
      subst hm
      simp [entryTruthy]
    | some lr =>
      unfold mainDeclOf at hm
      rw [hfm] at hm
      dsimp only at hm ⊢
      cases hl : loadYaml (yamlPath dir "app") lr with
      | error e =>
        rw [hl] at hm
        simp at hm
      | ok d =>
        rw [hl] at hm
        dsimp only at hm ⊢
        rw [declOfDict_override d none, hm]
        cases mainE with
        | none => simp [Except.map, entryTruthy]
        | some w =>
          cases hw : pyFalsy w <;> simp [Except.map, entryTruthy, hw]
  | some v =>
    by_cases hv : pyFalsy v = true
    · rw [if_neg (by simp [entryTruthy, hv])]
      cases hfm : findMain dirs with
      | none =>
        unfold mainDeclOf at hm
        rw [hfm] at hm
        injection hm with hm
        subst hm
        simp [entryTruthy, hv]
      | some lr =>
        unfold mainDeclOf at hm
        rw [hfm] at hm
        dsimp only at hm ⊢
        cases hl : loadYaml (yamlPath dir "app") lr with
        | error e =>
          rw [hl] at hm
          simp at hm
        | ok d =>
          rw [hl] at hm
          dsimp only at hm ⊢
          rw [declOfDict_override d (some v), hm]
          cases mainE with
          | none => simp [Except.map, entryTruthy, hv]
          | some w =>
            cases hw : pyFalsy w <;> simp [Except.map, entryTruthy, hv, hw]
    · have hv2 : pyFalsy v = false := by
        cases hpf : pyFalsy v with
        | false => rfl
        | true => exact absurd hpf hv
      rw [if_pos (by simp [entryTruthy, hv2])]
      simp [entryTruthy, hv2]

/-- **C8 counterexample.**  With the root/`app` manifest declaring
`entrypoint: "app"` and subordinate agent `s` (visited last) declaring
`entrypoint: ""`, the aggregate entrypoint is `"app"`, not the last
visited declaration `""`: the source's `if not entrypoint` treats the
declared empty string as undeclared and falls back to the main
manifest. -/
theorem falsy_entrypoint_not_last_wins :
    (mergeRun "/w/agents"
        [("app", some (.parsed [("publish", .map [("entrypoint", .str "app")])])),
         ("s", some (.parsed [("publish", .map [("entrypoint", .str "")])]))]).map
      (fun m => m.publish.entrypoint) = .ok (some (.str "app")) ∧
    some (Yaml.str "app") ≠ some (Yaml.str "") :=
  ⟨rfl, fun hcon =>
    absurd (congrArg (fun o : Option Yaml =>
      match o with
      | some (Yaml.str s) => s
      | _ => "?") hcon) (by decide)⟩

/-- **C8 amended.**  The aggregate `publish.entrypoint` equals
`specEntrypoint decls mainDecl`: among the per-directory declarations
(in visit order, the `app` directory included), the last declared value
wins *provided it is truthy*; a falsy declared value (null, `""`, `0`,
`false`, empty collection) is discarded in favor of the root/main
manifest's declaration, and the key is present in the aggregate only
when the finally chosen value is truthy — with no manifest declaring
one, the key is absent and this is not an error. -/
theorem entrypoint_resolution_spec (dir : String) (dirs : AgentDirs)
    (m : Merged) (decls : List (Option Yaml)) (mainE : Option Yaml)
    (h : mergeRun dir dirs = .ok m)
    (hd : dirs.mapM (declOfDir dir) = .ok decls)
    (hm : mainDeclOf dir dirs = .ok mainE) :
    m.publish.entrypoint = specEntrypoint decls mainE := by
  obtain ⟨acc, tools, res, rts, ep, _, _, _, _, hep, hmm⟩ := mergeRun_ok_inv h
  subst hmm
  have hr := entryResolve_eq_spec hd hm
  rw [hep] at hr
  injection hr with hr

/-- Witness for the amended C8: root declares `entrypoint: "app"`, no
subordinate declares one, and the aggregate's entrypoint is `"app"`;
dropping every declaration leaves the key absent without an error. -/
theorem entrypoint_resolution_spec_witness :
    mergeRun "/w/agents"
        [("app", some (.parsed [("publish", .map [("entrypoint", .str "app")])])),
         ("s", some (.parsed [("publish", .map [("tools", .list [.str "t1"])])]))] =
      .ok ⟨⟨["t1"], [], [], [], some (.str "app")⟩, [], []⟩ ∧
    ([("app", some (LoadResult.parsed [("publish",
        Yaml.map [("entrypoint", Yaml.str "app")])])),
      ("s", some (.parsed [("publish", .map [("tools", .list [.str "t1"])])]))] :
        AgentDirs).mapM (declOfDir "/w/agents") =
      .ok [some (.str "app"), none] ∧
    mainDeclOf "/w/agents"
        [("app", some (.parsed [("publish", .map [("entrypoint", .str "app")])])),
         ("s", some (.parsed [("publish", .map [("tools", .list [.str "t1"])])]))] =
      .ok (some (.str "app")) ∧
    (MergedPublish.mk ["t1"] [] [] [] (some (.str "app"))).entrypoint =
      specEntrypoint [some (.str "app"), none] (some (.str "app")) ∧
    specEntrypoint [some (Yaml.str "app"), none] (some (.str "app")) =
      some (.str "app") ∧
    specEntrypoint [] none = none :=
  ⟨rfl, rfl, rfl,
    entrypoint_resolution_spec "/w/agents"
      [("app", some (.parsed [("publish", .map [("entrypoint", .str "app")])])),
       ("s", some (.parsed [("publish", .map [("tools", .list [.str "t1"])])]))]
      ⟨⟨["t1"], [], [], [], some (.str "app")⟩, [], []⟩
      [some (.str "app"), none] (some (.str "app")) rfl rfl rfl,
    rfl, rfl⟩

end Treads
